import Mathlib

/-!
# Synth voice engine: delay line, note policy, voice lifecycle

A shallow embedding of `Delay.h`, `YourSynthVoice.h` and `pulseSynth.h`.

Conventions of the embedding.

* C++ `int` values are `Int`.  The cursors of a delay line in use stay
  between `0` and the buffer capacity, where 32-bit arithmetic does not wrap;
  wrap-around of `int` is not modelled.
* C++ `float` values are exact rationals (`ℚ`); a literal such as `0.6f`
  denotes its decimal value.  Rounding is not modelled.
* The heap buffer `float* buffer` is a `List`; an access outside the
  allocated block is undefined behaviour in C++ and yields `none` here.
  The same holds for the sample buffer the voices render into.
* A member function becomes a function from the object before the call to
  the object after it, paired with the returned value when there is one.
-/

namespace Synth

/-! ## Delay.h -/

/-- The class `Delay`: the heap buffer and the four `int` members. -/
structure Delay (α : Type) where
  buffer : List α
  size : Int
  readPos : Int
  writePos : Int
  delayTimeInSamples : Int
deriving Repr

namespace Delay

variable {α : Type}

/-- The expression `buffer[i]` used as a value: defined only inside the allocated block. -/
def load (buf : List α) (i : Int) : Option α :=
  if 0 ≤ i then buf[i.toNat]? else none

/-- The assignment `buffer[i] = x`: defined only inside the allocated block. -/
def store (buf : List α) (i : Int) (x : α) : Option (List α) :=
  if 0 ≤ i ∧ i.toNat < buf.length then some (buf.set i.toNat x) else none

/-- A newly constructed `Delay`: `readPos = 0` and `writePos = 0` come from the
in-class initialisers, the other members hold whatever `junk` holds. -/
def fresh (junk : Delay α) : Delay α :=
  { junk with readPos := 0, writePos := 0 }

/-- The method `readVal`: fetch the sample under the read cursor, then advance the
cursor and wrap it to `0` when it reaches `size`. -/
def readVal (d : Delay α) : Option (α × Delay α) :=
  match load d.buffer d.readPos with
  | none => none
  | some outVal =>
    let readPos := d.readPos + 1
    let readPos := if readPos ≥ d.size then 0 else readPos
    some (outVal, { d with readPos := readPos })

/-- The method `writeVal`: store the sample under the write cursor, then advance the
cursor and wrap it to `0` when it reaches `size`. -/
def writeVal (d : Delay α) (inputSample : α) : Option (Delay α) :=
  match store d.buffer d.writePos inputSample with
  | none => none
  | some buf =>
    let writePos := d.writePos + 1
    let writePos := if writePos ≥ d.size then 0 else writePos
    some { d with buffer := buf, writePos := writePos }

/-- The method `process`: `readVal` first, then `writeVal`, returning what was read. -/
def process (d : Delay α) (inputSample : α) : Option (α × Delay α) :=
  match readVal d with
  | none => none
  | some (output, d1) =>
    match writeVal d1 inputSample with
    | none => none
    | some d2 => some (output, d2)

/-- The method `setSize`: `new float[size]` followed by the zero-filling loop.
A negative array length makes `new` throw, which is `none` here. -/
def setSize [Zero α] (d : Delay α) (sizeInSamples : Int) : Option (Delay α) :=
  if sizeInSamples < 0 then none
  else some { d with size := sizeInSamples, buffer := List.replicate sizeInSamples.toNat 0 }

/-- The method `setDelayTime`: place the read cursor `_delayTimeInSamples` behind the
write cursor, adding `size` once when the difference is negative. -/
def setDelayTime (d : Delay α) (_delayTimeInSamples : Int) : Delay α :=
  let readPos := d.writePos - _delayTimeInSamples
  let readPos := if readPos < 0 then readPos + d.size else readPos
  { d with delayTimeInSamples := _delayTimeInSamples, readPos := readPos }

/-- Consecutive `process` calls, one per input sample, collecting the outputs. -/
def processAll (d : Delay α) : List α → Option (List α × Delay α)
  | [] => some ([], d)
  | x :: xs =>
    match process d x with
    | none => none
    | some (y, d1) =>
      match processAll d1 xs with
      | none => none
      | some (ys, d2) => some (y :: ys, d2)

/-- A call made on a delay line by its owner. -/
inductive Call (α : Type) where
  | process (inputSample : α)
  | setDelayTime (delayTimeInSamples : Int)
deriving Repr

/-- Perform one call, dropping the sample a `process` call returns. -/
def step (d : Delay α) : Call α → Option (Delay α)
  | .process x => (process d x).map Prod.snd
  | .setDelayTime l => some (setDelayTime d l)

/-- Perform a sequence of calls from left to right. -/
def run (d : Delay α) : List (Call α) → Option (Delay α)
  | [] => some d
  | c :: cs =>
    match step d c with
    | none => none
    | some d1 => run d1 cs

/-- A call the owner is allowed to make on a line of capacity `c`: any `process`, and
`setDelayTime` with a length between `0` and `c`. -/
def Call.Valid (c : Int) : Call α → Prop
  | .process _ => True
  | .setDelayTime l => 0 ≤ l ∧ l ≤ c

/-- A delay line ready for use: allocated with `size` slots, `size` positive and the
write cursor inside the buffer. -/
structure Ready (d : Delay α) : Prop where
  size_pos : 0 < d.size
  length_eq : (d.buffer.length : Int) = d.size
  write_lo : 0 ≤ d.writePos
  write_hi : d.writePos < d.size

/-- Both cursors inside the buffer. -/
structure InRange (d : Delay α) extends Ready d : Prop where
  read_lo : 0 ≤ d.readPos
  read_hi : d.readPos < d.size

/-- The sample stored `k` slots behind the write cursor (`1 ≤ k ≤ size`),
that is the sample written by the `k`-th most recent `process` call. -/
def past (d : Delay α) (k : Int) : Option α :=
  load d.buffer ((d.writePos - k) % d.size)

/-- A concrete object to start from: empty buffer, every member zero. -/
def blank : Delay ℚ :=
  { buffer := [], size := 0, readPos := 0, writePos := 0, delayTimeInSamples := 0 }

/-- A concrete object whose members hold arbitrary values, as before construction. -/
def scrap : Delay Int :=
  { buffer := [], size := 0, readPos := 3, writePos := 3, delayTimeInSamples := 0 }

/-- The line of capacity 4 reached from `scrap` by `setSize (4)`, `process (5)` and
`setDelayTime (1)`. -/
def demo4 : Delay Int :=
  { buffer := [5, 0, 0, 0], size := 4, readPos := 0, writePos := 1, delayTimeInSamples := 1 }

/-- A line of capacity 3 with both cursors on the last slot. -/
def demo3 : Delay Int :=
  { buffer := [1, 2, 3], size := 3, readPos := 2, writePos := 2, delayTimeInSamples := 3 }

/-- The first `n` samples of a unit impulse: `1.0` followed by `0.0` on every later call. -/
def impulse (n : Nat) : List ℚ :=
  (List.range n).map fun k => if k = 0 then 1 else 0

end Delay

/-! ## Collaborators outside the source files

The oscillators, the key engine, the envelope generator, the gain smoother, the random
source and the parameter cells are not part of the three source files.  Each is an
object whose answers are not computed here: answer number `k` of such an object is
`out k`, whatever the object is, so a statement proved for every `out` holds for every
behaviour of the collaborator. -/

/-- Modelled from the spec: a collaborator that hands out one sample per request
(`process() -> sample`, `getNextSample() -> sample`, a load from a parameter cell).
Request number `pulls` is answered by `out pulls`. -/
structure Source where
  out : Nat → ℚ
  pulls : Nat

/-- One request to a `Source`. -/
def Source.pull (s : Source) : ℚ × Source :=
  (s.out s.pulls, { s with pulls := s.pulls + 1 })

/-- Modelled from the spec: the uniform random source (`juce::Random`), integers in
`[0, n)` and floats in `[0, 1)`.  Draw number `draws` is answered from `ints` or from
`floats`, reduced into the promised range. -/
structure Random where
  ints : Nat → Nat
  floats : Nat → ℚ
  draws : Nat

namespace Random

/-- The draw `nextInt (maxValue)`: an integer in `[0, maxValue)`. -/
def nextInt (r : Random) (maxValue : Int) : Int × Random :=
  ((r.ints r.draws : Int) % maxValue, { r with draws := r.draws + 1 })

/-- The draw `nextFloat ()`: a value in `[0, 1)`. -/
def nextFloat (r : Random) : ℚ × Random :=
  (Int.fract (r.floats r.draws), { r with draws := r.draws + 1 })

end Random

/-- The linear map `juce::jmap (value0To1, targetRangeMin, targetRangeMax)`. -/
def jmap (value0To1 targetRangeMin targetRangeMax : ℚ) : ℚ :=
  targetRangeMin + value0To1 * (targetRangeMax - targetRangeMin)

/-- Conversion of a `float` to `int`: the fractional part is discarded. -/
def toInt (x : ℚ) : Int :=
  if 0 ≤ x then ⌊x⌋ else ⌈x⌉

/-- The four members of `juce::ADSR::Parameters`. -/
structure ADSRParameters where
  attack : ℚ
  decay : ℚ
  sustain : ℚ
  release : ℚ

/-- Modelled from the spec: the envelope generator (`juce::ADSR`) with the interface
`setSampleRate`, `setParameters`, `reset`, `noteOn`, `noteOff`, `getNextSample`. -/
structure ADSR where
  sampleRate : ℚ
  parameters : ADSRParameters
  held : Bool
  signal : Source

namespace ADSR

def setSampleRate (e : ADSR) (rate : ℚ) : ADSR := { e with sampleRate := rate }

def setParameters (e : ADSR) (p : ADSRParameters) : ADSR := { e with parameters := p }

def reset (e : ADSR) : ADSR := { e with held := false }

def noteOn (e : ADSR) : ADSR := { e with held := true }

def noteOff (e : ADSR) : ADSR := { e with held := false }

def getNextSample (e : ADSR) : ℚ × ADSR :=
  ((e.signal.pull).1, { e with signal := (e.signal.pull).2 })

end ADSR

/-- Modelled from the spec: an oscillator of `Oscillator.h` (`TriOsc`, `SineOsc`,
`SquareOsc`) with the interface `setSampleRate`, `setFrequency`, `process`. -/
structure Oscillator where
  sampleRate : ℚ
  frequency : ℚ
  signal : Source

namespace Oscillator

def setSampleRate (o : Oscillator) (rate : ℚ) : Oscillator := { o with sampleRate := rate }

def setFrequency (o : Oscillator) (hz : ℚ) : Oscillator := { o with frequency := hz }

def process (o : Oscillator) : ℚ × Oscillator :=
  ((o.signal.pull).1, { o with signal := (o.signal.pull).2 })

end Oscillator

/-- Modelled from the spec: the gain smoother (`juce::SmoothedValue<float>`); the values
`getNextValue` returns are not computed here. -/
structure SmoothedValue where
  sampleRate : ℚ
  rampLengthInSeconds : ℚ
  target : ℚ
  signal : Source

namespace SmoothedValue

def reset (s : SmoothedValue) (rate ramp : ℚ) : SmoothedValue :=
  { s with sampleRate := rate, rampLengthInSeconds := ramp }

def setCurrentAndTargetValue (s : SmoothedValue) (newValue : ℚ) : SmoothedValue :=
  { s with target := newValue }

def setTargetValue (s : SmoothedValue) (newValue : ℚ) : SmoothedValue :=
  { s with target := newValue }

def getNextValue (s : SmoothedValue) : ℚ × SmoothedValue :=
  ((s.signal.pull).1, { s with signal := (s.signal.pull).2 })

end SmoothedValue

/-- Modelled from the spec: the key and mode engine of `KeySignatures.h`.  The settings
it is given are recorded; the note list of a setting (`noteVector`), the note at an index
(`notes`) and the samples of `randomNoteGenerator` are answers that are not computed here. -/
structure KeySignatures where
  sampleRate : ℚ
  generatedOctaves : ℚ
  baseNote : ℚ
  mode : ℚ
  octaves : ℚ
  lfoFrequency : ℚ
  pulseSpeed : ℚ
  freqChanges : Nat
  noteVector : ℚ → ℚ → ℚ → List ℚ
  notes : ℚ → ℚ → ℚ → Int → ℚ
  signal : Source

namespace KeySignatures

def setOscillatorParams (k : KeySignatures) (rate : ℚ) : KeySignatures :=
  { k with sampleRate := rate }

def generateNotesForModes (k : KeySignatures) (octaveCount : ℚ) : KeySignatures :=
  { k with generatedOctaves := octaveCount }

def changeMode (k : KeySignatures) (baseNote mode octaveCount : ℚ) : KeySignatures :=
  { k with baseNote := baseNote, mode := mode, octaves := octaveCount }

def getNoteVector (k : KeySignatures) : List ℚ :=
  k.noteVector k.baseNote k.mode k.octaves

def getNotes (k : KeySignatures) (index : Int) : ℚ :=
  k.notes k.baseNote k.mode k.octaves index

def setPulseSpeed (k : KeySignatures) (value : ℚ) : KeySignatures :=
  { k with pulseSpeed := value }

def changeFreq (k : KeySignatures) : KeySignatures :=
  { k with freqChanges := k.freqChanges + 1 }

def randomNoteGenerator (k : KeySignatures) : ℚ × KeySignatures :=
  ((k.signal.pull).1, { k with signal := (k.signal.pull).2 })

end KeySignatures

/-- The functions of the C library and of the host library the voices call:
`exp` and `juce::MidiMessage::getMidiNoteInHertz`.  Their values are not rational in
general, so they are parameters of the embedding. -/
structure Host where
  exp : ℚ → ℚ
  getMidiNoteInHertz : Int → ℚ

/-- The output buffer `juce::AudioSampleBuffer`: one list of samples per channel. -/
abbrev AudioSampleBuffer := List (List ℚ)

namespace AudioSampleBuffer

/-- The call `getNumChannels ()`. -/
def getNumChannels (b : AudioSampleBuffer) : Nat := b.length

/-- The call `addSample (destChannel, destSample, valueToAdd)`: adds to the sample in
place; a channel or sample index outside the buffer is undefined, `none` here. -/
def addSample (b : AudioSampleBuffer) (destChannel : Nat) (destSample : Int)
    (valueToAdd : ℚ) : Option AudioSampleBuffer :=
  match b[destChannel]? with
  | none => none
  | some row =>
    match Delay.load row destSample with
    | none => none
    | some old =>
      match Delay.store row destSample (old + valueToAdd) with
      | none => none
      | some row1 => some (b.set destChannel row1)

/-- The call `getSample (channel, sampleIndex)`: the sample stored at that place, `none`
outside the buffer. -/
def getSample (b : AudioSampleBuffer) (channel : Nat) (sampleIndex : Int) : Option ℚ :=
  match b[channel]? with
  | none => none
  | some row => Delay.load row sampleIndex

/-- The buffer has room for the sample indices from `startSample` up to
`startSample + numSamples` in every channel. -/
def Holds (b : AudioSampleBuffer) (startSample numSamples : Int) : Prop :=
  0 ≤ startSample ∧ ∀ row ∈ b, startSample + numSamples ≤ (row.length : Int)

end AudioSampleBuffer

/-- A call the host makes on a voice between two `startNote` calls. -/
inductive VoiceCall where
  | stopNote (allowTailOff : Bool)
  | renderNextBlock (outputBuffer : AudioSampleBuffer) (startSample numSamples : Int)

/-- The buffers handed to the `renderNextBlock` calls of a run, in order. -/
def VoiceCall.buffers : List VoiceCall → List AudioSampleBuffer
  | [] => []
  | .stopNote _ :: rest => VoiceCall.buffers rest
  | .renderNextBlock outputBuffer _ _ :: rest => outputBuffer :: VoiceCall.buffers rest

/-! ## YourSynthVoice.h -/

/-- The class `MySynthVoice`: its private members, and `currentlyPlayingNote` of the
base class `juce::SynthesiserVoice`, the member `clearCurrentNote` resets. -/
structure MySynthVoice where
  currentlyPlayingNote : Int
  playing : Bool
  ending : Bool
  sr : ℚ
  freq : ℚ
  env : ADSR
  envParams : ADSRParameters
  triOsc : Oscillator
  sineOsc : Oscillator
  sqOsc : Oscillator
  detuneOsc : Oscillator
  triVolume : Int
  sineVolume : Int
  sqVolume : Int
  oscCount : Int
  velocityDetune : ℚ
  volume : Source
  smoothVolume : SmoothedValue
  key : KeySignatures
  mode : Int
  baseNote : Int
  delay : Delay ℚ
  random : Random

namespace MySynthVoice

/-- A newly constructed voice: the in-class initialisers are applied, the other
members hold whatever `junk` holds. -/
def fresh (junk : MySynthVoice) : MySynthVoice :=
  { junk with
    playing := false, ending := false, mode := 0, baseNote := 24,
    delay := Delay.fresh junk.delay }

/-- The base-class method `clearCurrentNote`. -/
def clearCurrentNote (v : MySynthVoice) : MySynthVoice :=
  { v with currentlyPlayingNote := -1 }

/-- The method `init`. -/
def init (v : MySynthVoice) (sampleRate : ℚ) : Option MySynthVoice :=
  let v := { v with sr := sampleRate }
  let v := { v with triOsc := v.triOsc.setSampleRate sampleRate }
  let v := { v with sineOsc := v.sineOsc.setSampleRate sampleRate }
  let v := { v with sqOsc := v.sqOsc.setSampleRate sampleRate }
  let v := { v with detuneOsc := v.detuneOsc.setSampleRate sampleRate }
  let v := { v with env := v.env.setSampleRate sampleRate }
  match v.delay.setSize (toInt sampleRate) with
  | none => none
  | some delay =>
    let v := { v with delay := delay }
    let v := { v with delay := v.delay.setDelayTime (toInt (0.5 * sampleRate)) }
    let v := { v with key := v.key.setOscillatorParams sampleRate }
    let v := { v with key := v.key.generateNotesForModes 4 }
    let v := { v with smoothVolume := v.smoothVolume.reset sampleRate 1.0 }
    let v := { v with smoothVolume := v.smoothVolume.setCurrentAndTargetValue 0.0 }
    let v := { v with envParams := { v.envParams with attack := 2.0 } }
    let v := { v with envParams := { v.envParams with decay := 0.75 } }
    let v := { v with envParams := { v.envParams with sustain := 0.25 } }
    let v := { v with envParams := { v.envParams with release := 3.0 } }
    some { v with env := v.env.setParameters v.envParams }

/-- The method `setMode`. -/
def setMode (v : MySynthVoice) (_baseNote _mode : Int) : MySynthVoice :=
  { v with baseNote := _baseNote, mode := _mode }

/-- The method `setEnv`. -/
def setEnv (v : MySynthVoice) (velocity : ℚ) (midiNoteNumber : Int) : MySynthVoice :=
  if midiNoteNumber > 23 then
    let v := { v with triVolume := (v.random.nextInt 2).1, random := (v.random.nextInt 2).2 }
    let v := { v with sineVolume := (v.random.nextInt 2).1, random := (v.random.nextInt 2).2 }
    let v := { v with sqVolume := (v.random.nextInt 2).1, random := (v.random.nextInt 2).2 }
    let v := { v with oscCount := v.triVolume + v.sineVolume + v.sqVolume }
    let v := if v.oscCount = 0 then { v with triVolume := 1, oscCount := 1 } else v
    if velocity > 0.6 then
      let v := { v with
        envParams := { v.envParams with attack := jmap (v.random.nextFloat).1 0.01 0.05 },
        random := (v.random.nextFloat).2 }
      let v := { v with
        envParams := { v.envParams with sustain := jmap (v.random.nextFloat).1 0.01 0.05 },
        random := (v.random.nextFloat).2 }
      let v := { v with
        envParams := { v.envParams with release := jmap (v.random.nextFloat).1 0.25 0.75 },
        random := (v.random.nextFloat).2 }
      { v with env := v.env.setParameters v.envParams }
    else
      let envelopeRelease := velocity * 5.0
      let v := { v with envParams := { v.envParams with release := envelopeRelease } }
      { v with env := v.env.setParameters v.envParams }
  else
    let v := v.clearCurrentNote
    let v := { v with triVolume := 1 }
    let v := { v with sineVolume := 0 }
    let v := { v with sqVolume := 0 }
    let v := { v with oscCount := v.triVolume + v.sineVolume + v.sqVolume }
    let envelopeRelease := velocity * 12.0
    let v := { v with envParams := { v.envParams with release := envelopeRelease } }
    { v with env := v.env.setParameters v.envParams }

/-- The method `setFrequencyVelocity`.  The two draws of `pickNote` are taken from left
to right. -/
def setFrequencyVelocity (host : Host) (v : MySynthVoice) (velocity : ℚ)
    (midiNoteNumber : Int) : MySynthVoice :=
  let v := { v with freq := host.getMidiNoteInHertz (midiNoteNumber + 24) }
  let scaledVelocity : Int := ⌈velocity * 3.0⌉ + 1
  let addOctave : Int := 12 * ((v.random.nextInt 2).1 + scaledVelocity)
  let v := { v with random := (v.random.nextInt 2).2 }
  if midiNoteNumber > 23 then
    let v := { v with key := v.key.changeMode v.baseNote v.mode 4 }
    let midiFreq := host.getMidiNoteInHertz midiNoteNumber
    let possibleNotes := v.key.getNoteVector
    if midiFreq ∈ possibleNotes then
      { v with freq := host.getMidiNoteInHertz (midiNoteNumber + addOctave) }
    else
      let first := (v.random.nextInt 7).1
      let v := { v with random := (v.random.nextInt 7).2 }
      let second := (v.random.nextInt 3).1
      let v := { v with random := (v.random.nextInt 3).2 }
      let pickNote := first + 7 * second
      { v with freq := v.key.getNotes pickNote }
  else v

/-- The method `startNote`. -/
def startNote (host : Host) (v : MySynthVoice) (midiNoteNumber : Int) (velocity : ℚ) :
    MySynthVoice :=
  let v := { v with playing := true }
  let v := { v with ending := false }
  let vel := velocity * 20.0
  let v := { v with velocityDetune := host.exp (0.2 * vel) / host.exp 4.0 * 20.0 }
  let v := { v with delay := v.delay.setDelayTime (toInt (velocity * v.sr)) }
  let v := v.setEnv velocity midiNoteNumber
  let v := v.setFrequencyVelocity host velocity midiNoteNumber
  let v := { v with triOsc := v.triOsc.setFrequency v.freq }
  let v := { v with sineOsc := v.sineOsc.setFrequency v.freq }
  let v := { v with sqOsc := v.sqOsc.setFrequency v.freq }
  let v := { v with env := v.env.reset }
  { v with env := v.env.noteOn }

/-- The method `stopNote`. -/
def stopNote (v : MySynthVoice) (allowTailOff : Bool) : MySynthVoice :=
  if allowTailOff then
    let v := { v with env := v.env.noteOff }
    { v with ending := true }
  else
    let v := v.clearCurrentNote
    { v with playing := false }

/-- The channel loop of `renderNextBlock`: the same value is added to sample
`sampleIndex` of every channel. -/
def addToChannels (outputBuffer : AudioSampleBuffer) (sampleIndex : Int) (value : ℚ) :
    Option AudioSampleBuffer :=
  (List.range outputBuffer.getNumChannels).foldlM
    (fun b chan => AudioSampleBuffer.addSample b chan sampleIndex value) outputBuffer

/-- One pass through the body of the DSP loop of `renderNextBlock`. -/
def renderSample (gainVal : ℚ) (v : MySynthVoice) (outputBuffer : AudioSampleBuffer)
    (sampleIndex : Int) : Option (MySynthVoice × AudioSampleBuffer) :=
  let envVal := (v.env.getNextSample).1
  let v := { v with env := (v.env.getNextSample).2 }
  match v.delay.process envVal with
  | none => none
  | some (delayEnv, delay) =>
    let v := { v with delay := delay }
    let tri := (v.triOsc.process).1
    let v := { v with triOsc := (v.triOsc.process).2 }
    let sine := (v.sineOsc.process).1
    let v := { v with sineOsc := (v.sineOsc.process).2 }
    let sq := (v.sqOsc.process).1
    let v := { v with sqOsc := (v.sqOsc.process).2 }
    let totalOscs := (tri * v.triVolume + sine * v.sineVolume + sq * v.sqVolume / 2) / v.oscCount
    let detune := (v.detuneOsc.process).1
    let v := { v with detuneOsc := (v.detuneOsc.process).2 }
    let totalOscs := (totalOscs + detune) / 2
    match v.delay.process totalOscs with
    | none => none
    | some (delayed, delay) =>
      let v := { v with delay := delay }
      let delayOutput := delayed * 0.5
      let currentSample := totalOscs * envVal + delayOutput * delayEnv
      match addToChannels outputBuffer sampleIndex (gainVal * currentSample) with
      | none => none
      | some out =>
        let v :=
          if v.ending then
            if delayEnv < 0.0001 ∧ envVal < 0.0001 then { v with playing := false } else v
          else v
        some (v, out)

/-- The DSP loop of `renderNextBlock`: `count` passes starting at `sampleIndex`. -/
def renderLoop (gainVal : ℚ) (v : MySynthVoice) (outputBuffer : AudioSampleBuffer)
    (sampleIndex : Int) : Nat → Option (MySynthVoice × AudioSampleBuffer)
  | 0 => some (v, outputBuffer)
  | count + 1 =>
    match renderSample gainVal v outputBuffer sampleIndex with
    | none => none
    | some (v1, out1) => renderLoop gainVal v1 out1 (sampleIndex + 1) count

/-- The part of `renderNextBlock` that runs before the DSP loop when the voice is
playing: the gain for the block and the detune frequency. -/
def renderSetup (v : MySynthVoice) : ℚ × MySynthVoice :=
  let target := (v.volume.pull).1
  let v := { v with volume := (v.volume.pull).2 }
  let v := { v with smoothVolume := v.smoothVolume.setTargetValue target }
  let gainVal := (v.smoothVolume.getNextValue).1
  let v := { v with smoothVolume := (v.smoothVolume.getNextValue).2 }
  let v := { v with detuneOsc := v.detuneOsc.setFrequency (v.freq - v.velocityDetune) }
  (gainVal, v)

/-- The method `renderNextBlock`: the loop runs over the sample indices from
`startSample` up to `startSample + numSamples`. -/
def renderNextBlock (v : MySynthVoice) (outputBuffer : AudioSampleBuffer)
    (startSample numSamples : Int) : Option (MySynthVoice × AudioSampleBuffer) :=
  if v.playing then
    renderLoop (renderSetup v).1 (renderSetup v).2 outputBuffer startSample numSamples.toNat
  else some (v, outputBuffer)

/-- The values `delayEnv` and `envVal` that pass number `pass` (counting from zero) of
the DSP loop computes in the call `renderNextBlock (outputBuffer, startSample, ...)` on
a playing voice: the loop is run for `pass` passes and the first two statements of the
next pass are evaluated. -/
def thresholdInputs (v : MySynthVoice) (outputBuffer : AudioSampleBuffer) (startSample : Int)
    (pass : Nat) : Option (ℚ × ℚ) :=
  match renderLoop (renderSetup v).1 (renderSetup v).2 outputBuffer startSample pass with
  | none => none
  | some (vi, _) =>
    match vi.delay.process (vi.env.getNextSample).1 with
    | none => none
    | some (delayEnv, _) => some (delayEnv, (vi.env.getNextSample).1)

/-- The values one pass of the DSP loop of `renderNextBlock` computes before it writes
to the buffer, under the names the source gives them: `tri`, `sine`, `square`, `detune`
are what the four `process ()` calls of the oscillators return, `totalOscs` is its final
value, and `delayed` is what the second `delay.process` call returns, before the factor
`0.5`. -/
structure PassValues where
  envVal : ℚ
  delayEnv : ℚ
  tri : ℚ
  sine : ℚ
  square : ℚ
  detune : ℚ
  totalOscs : ℚ
  delayed : ℚ
  delayOutput : ℚ
  currentSample : ℚ

/-- The values the next pass of the DSP loop computes on the voice `v`: the statements of
the loop body up to `currentSample`, evaluated as in `renderSample`. -/
def passValues (v : MySynthVoice) : Option PassValues :=
  let envVal := (v.env.getNextSample).1
  match v.delay.process envVal with
  | none => none
  | some (delayEnv, delay) =>
    let tri := (v.triOsc.process).1
    let sine := (v.sineOsc.process).1
    let sq := (v.sqOsc.process).1
    let totalOscs := (tri * v.triVolume + sine * v.sineVolume + sq * v.sqVolume / 2) / v.oscCount
    let detune := (v.detuneOsc.process).1
    let totalOscs := (totalOscs + detune) / 2
    match delay.process totalOscs with
    | none => none
    | some (delayed, _) =>
      let delayOutput := delayed * 0.5
      let currentSample := totalOscs * envVal + delayOutput * delayEnv
      some { envVal := envVal, delayEnv := delayEnv, tri := tri, sine := sine, square := sq,
             detune := detune, totalOscs := totalOscs, delayed := delayed,
             delayOutput := delayOutput, currentSample := currentSample }

/-- The values pass number `pass` (counting from zero) of the DSP loop computes in the
call `renderNextBlock (outputBuffer, startSample, ...)` on a playing voice: the loop is
run for `pass` passes and the next pass is evaluated up to `currentSample`. -/
def passValuesAt (v : MySynthVoice) (outputBuffer : AudioSampleBuffer) (startSample : Int)
    (pass : Nat) : Option PassValues :=
  match renderLoop (renderSetup v).1 (renderSetup v).2 outputBuffer startSample pass with
  | none => none
  | some (vi, _) => passValues vi

/-- The envelope value `n` passes of the DSP loop ahead: answer number `pulls + n` of
the envelope generator. -/
def envAt (v : MySynthVoice) (n : Nat) : ℚ :=
  v.env.signal.out (v.env.signal.pulls + n)

/-- The oscillator mix `n` passes of the DSP loop ahead: the final value of `totalOscs`
computed from answer number `pulls + n` of each oscillator. -/
def mixAt (v : MySynthVoice) (n : Nat) : ℚ :=
  ((v.triOsc.signal.out (v.triOsc.signal.pulls + n) * v.triVolume
      + v.sineOsc.signal.out (v.sineOsc.signal.pulls + n) * v.sineVolume
      + v.sqOsc.signal.out (v.sqOsc.signal.pulls + n) * v.sqVolume / 2) / v.oscCount
    + v.detuneOsc.signal.out (v.detuneOsc.signal.pulls + n)) / 2

/-- The input of `delay.process` call number `call` (counting from zero) made while the
voice renders: each pass makes two calls on the one delay line of the voice, the first
with the envelope value, the second with the oscillator mix. -/
def delayInput (v : MySynthVoice) (call : Nat) : ℚ :=
  if call % 2 = 0 then envAt v (call / 2) else mixAt v (call / 2)

/-- The inputs of all `delay.process` calls of the first `passes` passes, in order. -/
def delayInputs (v : MySynthVoice) (passes : Nat) : List ℚ :=
  (List.range (2 * passes)).map (delayInput v)

/-- Any run of calls other than `startNote`; the buffers of the `renderNextBlock`
calls are returned as the calls left them. -/
def perform (v : MySynthVoice) : List VoiceCall → Option (MySynthVoice × List AudioSampleBuffer)
  | [] => some (v, [])
  | .stopNote allowTailOff :: rest => perform (v.stopNote allowTailOff) rest
  | .renderNextBlock outputBuffer startSample numSamples :: rest =>
    match renderNextBlock v outputBuffer startSample numSamples with
    | none => none
    | some (v1, out1) =>
      match perform v1 rest with
      | none => none
      | some (v2, outs) => some (v2, out1 :: outs)

/-- A call the host makes on the primary voice, `init` and `startNote` included. -/
inductive Call where
  | init (sampleRate : ℚ)
  | startNote (midiNoteNumber : Int) (velocity : ℚ)
  | stopNote (allowTailOff : Bool)
  | renderNextBlock (outputBuffer : AudioSampleBuffer) (startSample numSamples : Int)

/-- The voice after one call; the contents of the output buffer are dropped. -/
def step (host : Host) (v : MySynthVoice) : Call → Option MySynthVoice
  | .init sampleRate => v.init sampleRate
  | .startNote midiNoteNumber velocity => some (v.startNote host midiNoteNumber velocity)
  | .stopNote allowTailOff => some (v.stopNote allowTailOff)
  | .renderNextBlock outputBuffer startSample numSamples =>
    (v.renderNextBlock outputBuffer startSample numSamples).map Prod.fst

/-- The voice after each call of a sequence, in order. -/
def states (host : Host) (v : MySynthVoice) : List Call → Option (List MySynthVoice)
  | [] => some []
  | c :: rest =>
    match step host v c with
    | none => none
    | some v1 =>
      match states host v1 rest with
      | none => none
      | some vs => some (v1 :: vs)

/-- The calls the voice `v` can take: `init` with a positive whole rate above the
position of the write cursor of the delay line, `startNote` with a velocity in `[0, 1]`,
`stopNote`, and `renderNextBlock` on a buffer that has room for the block. -/
def Call.Allowed (v : MySynthVoice) : Call → Prop
  | .init sampleRate =>
    0 < sampleRate ∧ sampleRate = ((toInt sampleRate : Int) : ℚ) ∧
      v.delay.writePos < toInt sampleRate
  | .startNote _ velocity => 0 ≤ velocity ∧ velocity ≤ 1
  | .stopNote _ => True
  | .renderNextBlock outputBuffer startSample numSamples =>
    outputBuffer.Holds startSample numSamples

/-- A sequence of calls each of which the voice can take when its turn comes.  Nothing
is asked of the calls that follow a call that does not return. -/
def Allowed (host : Host) (v : MySynthVoice) : List Call → Prop
  | [] => True
  | c :: rest =>
    Call.Allowed v c ∧
      match step host v c with
      | none => True
      | some v1 => Allowed host v1 rest

/-- The delay line of the voice has a positive capacity, equal to the sample rate of the
voice, its buffer has that many slots, the length of the last retune is between `0` and
the capacity, and both cursors are in `[0, capacity)`. -/
def Tuned (v : MySynthVoice) : Prop :=
  0 < v.delay.size ∧ v.sr = ((v.delay.size : Int) : ℚ) ∧
  (v.delay.buffer.length : Int) = v.delay.size ∧
  0 ≤ v.delay.delayTimeInSamples ∧ v.delay.delayTimeInSamples ≤ v.delay.size ∧
  0 ≤ v.delay.readPos ∧ v.delay.readPos < v.delay.size ∧
  0 ≤ v.delay.writePos ∧ v.delay.writePos < v.delay.size

end MySynthVoice

/-! ### The reading with two delay lines

Section 4.3 of the specification feeds the envelope through an "envelope delay" and the
oscillator mix through a second, independent "signal delay".  The definitions below
follow those words; they are compared with `passValuesAt`, which follows the source. -/

/-- The two independent delay lines of the specification's reading. -/
structure TwoDelayLines where
  envelopeDelay : Delay ℚ
  signalDelay : Delay ℚ

namespace TwoDelayLines

/-- One pass in the specification's reading: `delayEnv` is what the envelope delay
returns for `envVal`, `delayOutput` is `0.5` times what the signal delay returns for the
oscillator mix. -/
def pass (t : TwoDelayLines) (envVal rawMix : ℚ) : Option ((ℚ × ℚ) × TwoDelayLines) :=
  match t.envelopeDelay.process envVal with
  | none => none
  | some (delayEnv, e1) =>
    match t.signalDelay.process rawMix with
    | none => none
    | some (delayed, s1) =>
      some ((delayEnv, delayed * 0.5), { envelopeDelay := e1, signalDelay := s1 })

/-- Consecutive passes in the specification's reading, one per pair `(envVal, rawMix)`,
collecting the pairs `(delayEnv, delayOutput)`. -/
def passes (t : TwoDelayLines) : List (ℚ × ℚ) → Option (List (ℚ × ℚ) × TwoDelayLines)
  | [] => some ([], t)
  | (envVal, rawMix) :: rest =>
    match t.pass envVal rawMix with
    | none => none
    | some (taps, t1) =>
      match passes t1 rest with
      | none => none
      | some (more, t2) => some (taps :: more, t2)

end TwoDelayLines

/-! ### Concrete objects for the examples -/

/-- A collaborator that answers `x` to every request. -/
def Source.const (x : ℚ) : Source :=
  { out := fun _ => x, pulls := 0 }

/-- A random source whose raw integer draws are `0, 1, 2, ...` and whose raw float
draws are all `1/2`. -/
def Random.demo : Random :=
  { ints := fun k => k, floats := fun _ => 1 / 2, draws := 0 }

/-- Stand-in values for the library functions; the theorems hold for every `Host`. -/
def Host.demo : Host :=
  { exp := fun x => 1 + x, getMidiNoteInHertz := fun n => 440 + n }

/-- An envelope generator in its release tail, falling by `0.00001` per request:
`0.00009`, `0.00008`, `0.00007`, ... down to `0`. -/
def ADSR.demo : ADSR :=
  { sampleRate := 4
    parameters := { attack := 2, decay := 3 / 4, sustain := 1 / 4, release := 3 }
    held := false
    signal := { out := fun k => ((9 - k : Nat) : ℚ) / 100000, pulls := 0 } }

/-- An oscillator that answers `x` to every request. -/
def Oscillator.const (x : ℚ) : Oscillator :=
  { sampleRate := 4, frequency := 440, signal := Source.const x }

/-- A key engine with an empty note list. -/
def KeySignatures.demo : KeySignatures :=
  { sampleRate := 4, generatedOctaves := 4, baseNote := 24, mode := 0, octaves := 4,
    lfoFrequency := 0, pulseSpeed := 0, freqChanges := 0,
    noteVector := fun _ _ _ => [], notes := fun _ _ _ _ => 440, signal := Source.const 0 }

/-- A primary voice in the Releasing state: sample rate 4, a delay line of capacity 4
and length 2, triangle oscillator alone at a constant `1/2`, gain `1`, envelope in its
release tail.  The delay line holds what the two preceding passes of the DSP loop wrote:
the envelope values `0.00011` and `0.00010`, each followed by the oscillator mix `1/4`. -/
def MySynthVoice.demo : MySynthVoice :=
  { currentlyPlayingNote := 40
    playing := true
    ending := true
    sr := 4
    freq := 440
    env := ADSR.demo
    envParams := { attack := 2, decay := 3 / 4, sustain := 1 / 4, release := 3 }
    triOsc := Oscillator.const (1 / 2)
    sineOsc := Oscillator.const 0
    sqOsc := Oscillator.const 0
    detuneOsc := Oscillator.const 0
    triVolume := 1
    sineVolume := 0
    sqVolume := 0
    oscCount := 1
    velocityDetune := 0
    volume := Source.const 1
    smoothVolume := { sampleRate := 4, rampLengthInSeconds := 1, target := 1,
                      signal := Source.const 1 }
    key := KeySignatures.demo
    mode := 0
    baseNote := 24
    delay := { buffer := [11 / 100000, 1 / 4, 10 / 100000, 1 / 4], size := 4, readPos := 2,
               writePos := 0, delayTimeInSamples := 2 }
    random := Random.demo }

/-- The voice `MySynthVoice.demo` in the Sounding state: playing, not ending. -/
def MySynthVoice.sounding : MySynthVoice :=
  { MySynthVoice.demo with ending := false }

/-- A second random source, with other raw draws than `Random.demo`. -/
def Random.other : Random :=
  { ints := fun k => k + 1, floats := fun _ => 1 / 3, draws := 5 }

/-! ## pulseSynth.h -/

/-- The class `pulseSynthVoice`: the members its `stopNote` and `renderNextBlock` use,
and `currentlyPlayingNote` of the base class. -/
structure pulseSynthVoice where
  currentlyPlayingNote : Int
  playing : Bool
  ending : Bool
  env : ADSR
  volume : Source
  key : KeySignatures
  pulseSpeed : Source

namespace pulseSynthVoice

/-- The base-class method `clearCurrentNote`. -/
def clearCurrentNote (v : pulseSynthVoice) : pulseSynthVoice :=
  { v with currentlyPlayingNote := -1 }

/-- The method `stopNote`. -/
def stopNote (v : pulseSynthVoice) (allowTailOff : Bool) : pulseSynthVoice :=
  if allowTailOff then
    let v := { v with env := v.env.noteOff }
    { v with ending := true }
  else
    let v := v.clearCurrentNote
    { v with playing := false }

/-- The channel loop of `renderNextBlock`: the volume cell is read once per channel. -/
def addToChannels (v : pulseSynthVoice) (outputBuffer : AudioSampleBuffer)
    (sampleIndex : Int) (currentSample : ℚ) : Option (pulseSynthVoice × AudioSampleBuffer) :=
  (List.range outputBuffer.getNumChannels).foldlM
    (fun (s : pulseSynthVoice × AudioSampleBuffer) chan =>
      match AudioSampleBuffer.addSample s.2 chan sampleIndex
          (currentSample * (s.1.volume.pull).1) with
      | none => none
      | some b => some ({ s.1 with volume := (s.1.volume.pull).2 }, b))
    (v, outputBuffer)

/-- One pass through the body of the DSP loop of `renderNextBlock`. -/
def renderSample (v : pulseSynthVoice) (outputBuffer : AudioSampleBuffer)
    (sampleIndex : Int) : Option (pulseSynthVoice × AudioSampleBuffer) :=
  let envVal := (v.env.getNextSample).1
  let v := { v with env := (v.env.getNextSample).2 }
  let speed := (v.pulseSpeed.pull).1
  let v := { v with pulseSpeed := (v.pulseSpeed.pull).2 }
  let v := { v with key := v.key.setPulseSpeed speed }
  let v := { v with key := v.key.changeFreq }
  let currentSample := (v.key.randomNoteGenerator).1 * envVal
  let v := { v with key := (v.key.randomNoteGenerator).2 }
  match addToChannels v outputBuffer sampleIndex currentSample with
  | none => none
  | some (v, out) =>
    let v :=
      if v.ending then
        if envVal < 0.0001 then { v.clearCurrentNote with playing := false } else v
      else v
    some (v, out)

/-- The DSP loop of `renderNextBlock`: `count` passes starting at `sampleIndex`. -/
def renderLoop (v : pulseSynthVoice) (outputBuffer : AudioSampleBuffer)
    (sampleIndex : Int) : Nat → Option (pulseSynthVoice × AudioSampleBuffer)
  | 0 => some (v, outputBuffer)
  | count + 1 =>
    match renderSample v outputBuffer sampleIndex with
    | none => none
    | some (v1, out1) => renderLoop v1 out1 (sampleIndex + 1) count

/-- The method `renderNextBlock`. -/
def renderNextBlock (v : pulseSynthVoice) (outputBuffer : AudioSampleBuffer)
    (startSample numSamples : Int) : Option (pulseSynthVoice × AudioSampleBuffer) :=
  if v.playing then renderLoop v outputBuffer startSample numSamples.toNat
  else some (v, outputBuffer)

/-- The envelope value `n` passes of the DSP loop ahead: answer number `pulls + n` of
the envelope generator. -/
def envAt (v : pulseSynthVoice) (n : Nat) : ℚ :=
  v.env.signal.out (v.env.signal.pulls + n)

/-- A pulse voice in the Releasing state whose envelope is in its release tail. -/
def demo : pulseSynthVoice :=
  { currentlyPlayingNote := 70
    playing := true
    ending := true
    env := ADSR.demo
    volume := Source.const 1
    key := KeySignatures.demo
    pulseSpeed := Source.const 1 }

/-- Any run of calls other than `startNote`; the buffers of the `renderNextBlock`
calls are returned as the calls left them. -/
def perform (v : pulseSynthVoice) :
    List VoiceCall → Option (pulseSynthVoice × List AudioSampleBuffer)
  | [] => some (v, [])
  | .stopNote allowTailOff :: rest => perform (v.stopNote allowTailOff) rest
  | .renderNextBlock outputBuffer startSample numSamples :: rest =>
    match renderNextBlock v outputBuffer startSample numSamples with
    | none => none
    | some (v1, out1) =>
      match perform v1 rest with
      | none => none
      | some (v2, outs) => some (v2, out1 :: outs)

end pulseSynthVoice

/-! ## Theorems about the delay line -/

namespace Delay

variable {α : Type}

theorem emod_window (a c : Int) (hc : 0 < c) (h1 : -c ≤ a) (h2 : a < 2 * c) :
    a % c = if a < 0 then a + c else if c ≤ a then a - c else a := by
  split_ifs with h3 h4
  · exact ((Int.ediv_emod_unique hc).2 ⟨show a + c + c * (-1) = a by ring, by omega, by omega⟩).2
  · exact ((Int.ediv_emod_unique hc).2 ⟨show a - c + c * 1 = a by ring, by omega, by omega⟩).2
  · exact Int.emod_eq_of_lt (by omega) (by omega)

theorem load_eq_getElem (buf : List α) (i : Int) (h0 : 0 ≤ i) (h1 : i < buf.length) :
    load buf i = some (buf.get ⟨i.toNat, by omega⟩) := by
  have h : i.toNat < buf.length := by omega
  simp [load, h0, List.getElem?_eq_getElem h]

theorem load_set_same (buf : List α) (i : Int) (x : α) (h0 : 0 ≤ i) (h1 : i < buf.length) :
    load (buf.set i.toNat x) i = some x := by
  have h : i.toNat < buf.length := by omega
  simp [load, h0, h]

theorem load_set_other (buf : List α) (i j : Int) (x : α) (h0 : 0 ≤ i) (hij : j ≠ i) :
    load (buf.set i.toNat x) j = load buf j := by
  unfold load
  split_ifs with hj
  · have : i.toNat ≠ j.toNat := by omega
    simp [List.getElem?_set_ne this]
  · rfl

/-- One `process` call on a line whose cursors are in range, spelled out field by field. -/
theorem process_eq (d : Delay α) (x : α) (h : InRange d) :
    ∃ out, load d.buffer d.readPos = some out ∧
      process d x = some (out,
        { d with
          buffer := d.buffer.set d.writePos.toNat x
          readPos := if d.readPos + 1 ≥ d.size then 0 else d.readPos + 1
          writePos := if d.writePos + 1 ≥ d.size then 0 else d.writePos + 1 }) := by
  obtain ⟨⟨hs, hl, hw0, hw1⟩, hr0, hr1⟩ := h
  have hload := load_eq_getElem d.buffer d.readPos hr0 (by omega)
  refine ⟨_, hload, ?_⟩
  have hst : store d.buffer d.writePos x = some (d.buffer.set d.writePos.toNat x) := by
    have : d.writePos.toNat < d.buffer.length := by omega
    simp [store, hw0, this]
  simp only [process, readVal, hload, writeVal, hst]

/-- A successful `process` call keeps a ready line ready and keeps its capacity. -/
theorem process_ready (d d1 : Delay α) (x y : α) (h : Ready d)
    (hp : process d x = some (y, d1)) : Ready d1 ∧ d1.size = d.size := by
  obtain ⟨hs, hl, hw0, hw1⟩ := h
  unfold process readVal writeVal at hp
  cases hld : load d.buffer d.readPos with
  | none => simp [hld] at hp
  | some v =>
    have hst : store d.buffer d.writePos x = some (d.buffer.set d.writePos.toNat x) := by
      have : d.writePos.toNat < d.buffer.length := by omega
      simp [store, hw0, this]
    simp only [hld, hst, Option.some.injEq, Prod.mk.injEq] at hp
    obtain ⟨-, rfl⟩ := hp
    refine ⟨⟨hs, ?_, ?_, ?_⟩, rfl⟩
    · simpa using hl
    · show 0 ≤ (if d.writePos + 1 ≥ d.size then 0 else d.writePos + 1)
      split_ifs <;> omega
    · show (if d.writePos + 1 ≥ d.size then 0 else d.writePos + 1) < d.size
      split_ifs <;> omega

/-- Any sequence of calls that runs to completion keeps a ready line ready. -/
theorem run_ready (calls : List (Call α)) (d d1 : Delay α) (h : Ready d)
    (hr : run d calls = some d1) : Ready d1 ∧ d1.size = d.size := by
  induction calls generalizing d with
  | nil =>
    simp only [run, Option.some.injEq] at hr
    subst hr
    exact ⟨h, rfl⟩
  | cons c cs ih =>
    unfold run at hr
    cases hc : step d c with
    | none => simp [hc] at hr
    | some d2 =>
      simp only [hc] at hr
      have h2 : Ready d2 ∧ d2.size = d.size := by
        cases c with
        | process x =>
          simp only [step, Option.map_eq_some'] at hc
          obtain ⟨⟨y, d3⟩, hp, rfl⟩ := hc
          exact process_ready d d3 x y h hp
        | setDelayTime l =>
          simp only [step, Option.some.injEq] at hc
          subst hc
          exact ⟨⟨h.size_pos, h.length_eq, h.write_lo, h.write_hi⟩, rfl⟩
      obtain ⟨h3, h4⟩ := ih d2 h2.1 hr
      exact ⟨h3, h4.trans h2.2⟩

/-- The read cursor `setDelayTime` leaves behind, as a remainder. -/
theorem setDelayTime_readPos (d : Delay α) (l : Int) (h : Ready d) (h0 : 0 ≤ l)
    (h1 : l ≤ d.size) : (setDelayTime d l).readPos = (d.writePos - l) % d.size := by
  obtain ⟨hs, hl, hw0, hw1⟩ := h
  rw [emod_window _ _ hs (by omega) (by omega)]
  show (if d.writePos - l < 0 then d.writePos - l + d.size else d.writePos - l) = _
  split_ifs <;> omega

/-- One `process` call on a line whose read cursor trails the write cursor by `l`:
the sample written `l` calls ago comes out, and every stored sample ages by one call. -/
theorem process_tuned (d : Delay α) (x : α) (l : Int) (h : Ready d) (hl1 : 1 ≤ l)
    (hl2 : l ≤ d.size) (hr : d.readPos = (d.writePos - l) % d.size) :
    ∃ out d1, process d x = some (out, d1) ∧ past d l = some out ∧ Ready d1 ∧
      d1.size = d.size ∧ d1.readPos = (d1.writePos - l) % d1.size ∧
      past d1 1 = some x ∧ ∀ k, 1 ≤ k → k < d.size → past d1 (k + 1) = past d k := by
  have hR := h
  obtain ⟨hs, hlen, hw0, hw1⟩ := h
  have hr1 := hr
  rw [emod_window _ _ hs (by omega) (by omega)] at hr1
  have hin : InRange d := ⟨hR, by rw [hr1]; split_ifs <;> omega, by rw [hr1]; split_ifs <;> omega⟩
  obtain ⟨out, hload, hproc⟩ := process_eq d x hin
  have hRd := process_ready d _ x out hR hproc
  refine ⟨out, _, hproc, ?_, hRd.1, rfl, ?_, ?_, ?_⟩
  · unfold past
    rw [← hr]
    exact hload
  · show (if d.readPos + 1 ≥ d.size then 0 else d.readPos + 1)
      = ((if d.writePos + 1 ≥ d.size then 0 else d.writePos + 1) - l) % d.size
    rw [emod_window _ _ hs (by split_ifs <;> omega) (by split_ifs <;> omega), hr1]
    split_ifs <;> omega
  · show load (d.buffer.set d.writePos.toNat x)
      (((if d.writePos + 1 ≥ d.size then 0 else d.writePos + 1) - 1) % d.size) = some x
    have e : ((if d.writePos + 1 ≥ d.size then 0 else d.writePos + 1) - 1) % d.size
        = d.writePos := by
      rw [emod_window _ _ hs (by split_ifs <;> omega) (by split_ifs <;> omega)]
      split_ifs <;> omega
    rw [e]
    exact load_set_same _ _ _ hw0 (by omega)
  · intro k hk1 hk2
    show load (d.buffer.set d.writePos.toNat x)
      (((if d.writePos + 1 ≥ d.size then 0 else d.writePos + 1) - (k + 1)) % d.size)
      = load d.buffer ((d.writePos - k) % d.size)
    have e : ((if d.writePos + 1 ≥ d.size then 0 else d.writePos + 1) - (k + 1)) % d.size
        = (d.writePos - k) % d.size := by
      rw [emod_window _ _ hs (by split_ifs <;> omega) (by split_ifs <;> omega),
        emod_window _ _ hs (by omega) (by omega)]
      split_ifs <;> omega
    have ne : (d.writePos - k) % d.size ≠ d.writePos := by
      rw [emod_window _ _ hs (by omega) (by omega)]
      split_ifs <;> omega
    rw [e]
    exact load_set_other _ _ _ _ hw0 ne

/-- A run of `process` calls on a line whose read cursor trails the write cursor by `l`:
call number `n` (counting from zero) returns the input of call `n - l`, and before
that the sample that was already stored `l - n` slots behind the write cursor. -/
theorem processAll_tuned (xs : List α) (d : Delay α) (l : Int) (h : Ready d) (hl1 : 1 ≤ l)
    (hl2 : l ≤ d.size) (hr : d.readPos = (d.writePos - l) % d.size) :
    ∃ ys d1, processAll d xs = some (ys, d1) ∧ ys.length = xs.length ∧ Ready d1 ∧
      d1.size = d.size ∧ d1.readPos = (d1.writePos - l) % d1.size ∧
      ∀ n : Nat, n < xs.length →
        ys[n]? = if (n : Int) < l then past d (l - n) else xs[n - l.toNat]? := by
  induction xs generalizing d with
  | nil => exact ⟨[], d, rfl, rfl, h, rfl, hr, by simp⟩
  | cons x xs ih =>
    obtain ⟨out, d1, hp, hout, hR1, hs1, hr1, hnew, hage⟩ := process_tuned d x l h hl1 hl2 hr
    obtain ⟨ys, d2, hpa, hlen, hR2, hs2, hr2, hys⟩ := ih d1 hR1 (by omega) hr1
    refine ⟨out :: ys, d2, ?_, by simp [hlen], hR2, hs2.trans hs1, hr2, ?_⟩
    · simp only [processAll, hp, hpa]
    · intro n hn
      cases n with
      | zero =>
        have : ((0 : Nat) : Int) < l := by omega
        simp only [this, if_true]
        simpa using hout.symm
      | succ m =>
        have hm : m < xs.length := by simpa using hn
        rw [List.getElem?_cons_succ, hys m hm]
        by_cases c1 : ((m + 1 : Nat) : Int) < l
        · have c2 : (m : Int) < l := by omega
          rw [if_pos c1, if_pos c2]
          have e : l - (m : Int) = (l - ((m + 1 : Nat) : Int)) + 1 := by push_cast; ring
          rw [e]
          exact hage _ (by omega) (by omega)
        · rw [if_neg c1]
          by_cases c2 : (m : Int) < l
          · rw [if_pos c2]
            have e1 : l - (m : Int) = 1 := by omega
            have e2 : m + 1 - l.toNat = 0 := by omega
            rw [e1, e2, hnew]
            simp
          · rw [if_neg c2]
            have e2 : m + 1 - l.toNat = (m - l.toNat) + 1 := by omega
            rw [e2, List.getElem?_cons_succ]

/-- On a line just allocated by `setSize` every stored sample is zero. -/
theorem load_replicate_zero [Zero α] (c : Nat) (i : Int) (h0 : 0 ≤ i) (h1 : i < c) :
    load (List.replicate c (0 : α)) i = some 0 := by
  have h : i.toNat < c := by omega
  simp [load, h0, List.getElem?_replicate, h]

/-- The state `setSize` produces from a new object. -/
theorem setSize_fresh [Zero α] (junk : Delay α) (c : Nat) :
    setSize (fresh junk) (c : Int) = some
      { junk with buffer := List.replicate c 0, size := c, readPos := 0, writePos := 0 } := by
  simp [setSize, fresh]

/-- The lines reached from a new object by `setSize` and a run of calls are ready. -/
theorem reached_ready [Zero α] (c : Nat) (hc : 0 < c) (junk : Delay α)
    (calls : List (Call α)) (d : Delay α)
    (hrun : (setSize (fresh junk) (c : Int)).bind (fun d0 => run d0 calls) = some d) :
    Ready d ∧ d.size = c := by
  rw [setSize_fresh, Option.some_bind] at hrun
  refine run_ready calls _ d ⟨?_, ?_, ?_, ?_⟩ hrun
  · show (0 : Int) < c
    omega
  · show ((List.replicate c (0 : α)).length : Int) = c
    simp
  · show (0 : Int) ≤ 0
    omega
  · show (0 : Int) < c
    omega

/-- A run of allowed calls on a line with both cursors in range succeeds and leaves
both cursors in range. -/
theorem run_inRange (calls : List (Call α)) (d : Delay α) (h : InRange d)
    (hv : ∀ c ∈ calls, Call.Valid d.size c) :
    ∃ d1, run d calls = some d1 ∧ InRange d1 ∧ d1.size = d.size := by
  induction calls generalizing d with
  | nil => exact ⟨d, rfl, h, rfl⟩
  | cons c cs ih =>
    have hc := hv c (List.mem_cons_self _ _)
    have hcs : ∀ c1 ∈ cs, Call.Valid d.size c1 := fun c1 m => hv c1 (List.mem_cons_of_mem _ m)
    have hstep : ∃ d2, step d c = some d2 ∧ InRange d2 ∧ d2.size = d.size := by
      cases c with
      | process x =>
        obtain ⟨out, -, hp⟩ := process_eq d x h
        have hR := process_ready d _ x out h.toReady hp
        refine ⟨_, by simp only [step, hp, Option.map_some'], ⟨hR.1, ?_, ?_⟩, rfl⟩
        · show 0 ≤ (if d.readPos + 1 ≥ d.size then 0 else d.readPos + 1)
          have := h.read_lo
          split_ifs <;> omega
        · show (if d.readPos + 1 ≥ d.size then 0 else d.readPos + 1) < d.size
          have := h.toReady.size_pos
          split_ifs <;> omega
      | setDelayTime l =>
        obtain ⟨⟨hs, hl, hw0, hw1⟩, -, -⟩ := h
        obtain ⟨hl0, hl1⟩ : 0 ≤ l ∧ l ≤ d.size := hc
        refine ⟨_, rfl, ⟨⟨hs, hl, hw0, hw1⟩, ?_, ?_⟩, rfl⟩
        · show 0 ≤ (if d.writePos - l < 0 then d.writePos - l + d.size else d.writePos - l)
          split_ifs <;> omega
        · show (if d.writePos - l < 0 then d.writePos - l + d.size else d.writePos - l) < d.size
          split_ifs <;> omega
    obtain ⟨d2, hs2, hin2, hsz2⟩ := hstep
    obtain ⟨d3, hr3, hin3, hsz3⟩ := ih d2 hin2 (by rw [hsz2]; exact hcs)
    exact ⟨d3, by simp only [run, hs2, hr3], hin3, hsz3.trans hsz2⟩

/-- The response of a newly allocated line of capacity `c`, retuned to `l`, to a unit
impulse: a single `1.0`, at call number `l` counting from zero. -/
theorem impulse_general (c l : Nat) (hl : 0 < l) (hlc : l ≤ c) (junk : Delay ℚ) (n : Nat) :
    ∃ d0 d1, setSize (fresh junk) (c : Int) = some d0 ∧
      processAll (setDelayTime d0 l) (impulse n)
        = some ((List.range n).map (fun k => if k = l then (1 : ℚ) else 0), d1) := by
  have hc : (0 : Int) < c := by omega
  have hR0 : Ready ({ junk with
      buffer := List.replicate c 0, size := c, readPos := 0, writePos := 0 } : Delay ℚ) :=
    ⟨hc, by simp, le_refl _, hc⟩
  have hR : Ready (setDelayTime ({ junk with
      buffer := List.replicate c 0, size := c, readPos := 0, writePos := 0 } : Delay ℚ) l) :=
    ⟨hR0.size_pos, hR0.length_eq, hR0.write_lo, hR0.write_hi⟩
  have hll : (l : Int) ≤ (c : Int) := by omega
  obtain ⟨ys, d1, hp, hlen, -, -, -, hys⟩ :=
    processAll_tuned (impulse n) _ (l : Int) hR (by omega) hll
      (setDelayTime_readPos _ _ hR0 (by omega) hll)
  refine ⟨_, d1, setSize_fresh junk c, ?_⟩
  rw [hp]
  have hln : (impulse n).length = n := by simp [impulse]
  have e : ys = (List.range n).map (fun k => if k = l then (1 : ℚ) else 0) := by
    apply List.ext_getElem?
    intro k
    by_cases hk : k < n
    · rw [hys k (by omega)]
      by_cases hkl : (k : Int) < (l : Int)
      · rw [if_pos hkl]
        have hne : k ≠ l := by omega
        have hpast : past (setDelayTime ({ junk with
            buffer := List.replicate c 0, size := c, readPos := 0, writePos := 0 } : Delay ℚ) l)
            ((l : Int) - k) = some 0 := by
          show load (List.replicate c 0) (((0 : Int) - ((l : Int) - k)) % (c : Int)) = some 0
          exact load_replicate_zero c _ (Int.emod_nonneg _ hc.ne') (Int.emod_lt_of_pos _ hc)
        rw [hpast]
        simp [List.getElem?_range hk, hne]
      · rw [if_neg hkl]
        have h0 : (l : Int).toNat = l := by simp
        have h1 : k - l < n := by omega
        have h2 : (k - l = 0) ↔ k = l := by omega
        rw [h0]
        simp only [impulse, List.getElem?_map, List.getElem?_range h1, List.getElem?_range hk,
          Option.map_some', h2]
    · have h1 : ys.length ≤ k := by omega
      rw [List.getElem?_eq_none h1, List.getElem?_eq_none (by simp; omega)]
  rw [e]

/-- C1 (delay round-trip).  On a line of capacity `c > 0` allocated by `setSize` and then
driven by any calls, after `setDelayTime l` with `0 < l ≤ c` a run of `process` calls
succeeds, and call number `n ≥ l` of the run returns exactly the input of the call made
`l` calls earlier; on a line not used before, the first `l` calls return zero. -/
theorem delay_round_trip [Zero α] (c l : Nat) (hc : 0 < c) (hl : 0 < l) (hlc : l ≤ c)
    (junk : Delay α) (calls : List (Call α)) (d : Delay α)
    (hrun : (setSize (fresh junk) (c : Int)).bind (fun d0 => run d0 calls) = some d)
    (xs : List α) :
    ∃ ys d1, processAll (setDelayTime d l) xs = some (ys, d1) ∧ ys.length = xs.length ∧
      (∀ n, l ≤ n → n < xs.length → ys[n]? = xs[n - l]?) ∧
      (calls = [] → ∀ n, n < l → n < xs.length → ys[n]? = some 0) := by
  obtain ⟨hR0, hsz⟩ := reached_ready c hc junk calls d hrun
  have hR : Ready (setDelayTime d l) :=
    ⟨hR0.size_pos, hR0.length_eq, hR0.write_lo, hR0.write_hi⟩
  have hll : (l : Int) ≤ d.size := by omega
  obtain ⟨ys, d1, hp, hlen, -, -, -, hys⟩ :=
    processAll_tuned xs _ (l : Int) hR (by omega) hll
      (setDelayTime_readPos _ _ hR0 (by omega) hll)
  refine ⟨ys, d1, hp, hlen, ?_, ?_⟩
  · intro n h1 h2
    have h0 : (l : Int).toNat = l := by simp
    rw [hys n h2, if_neg (by omega), h0]
  · intro hnil n h1 h2
    rw [hys n h2, if_pos (by omega)]
    subst hnil
    rw [setSize_fresh, Option.some_bind] at hrun
    simp only [run, Option.some.injEq] at hrun
    subst hrun
    have hci : (0 : Int) < c := by omega
    show load (List.replicate c 0) (((0 : Int) - ((l : Int) - n)) % (c : Int)) = some 0
    exact load_replicate_zero c _ (Int.emod_nonneg _ hci.ne') (Int.emod_lt_of_pos _ hci)

/-- Witness for C1: capacity 4, one earlier `process` and one earlier retune, then a
retune to length 2 and three inputs. -/
theorem delay_round_trip_witness :
    ∃ ys d1, processAll (setDelayTime
        demo4 ((2 : Nat) : Int)) [7, 8, 9] = some (ys, d1) ∧
      ys.length = [7, 8, 9].length ∧
      (∀ n, 2 ≤ n → n < [7, 8, 9].length → ys[n]? = [7, 8, 9][n - 2]?) ∧
      (([Call.process 5, Call.setDelayTime 1] : List (Call Int)) = [] →
        ∀ n, n < 2 → n < [7, 8, 9].length → ys[n]? = some 0) :=
  delay_round_trip 4 2 (by decide) (by decide) (by decide)
    scrap
    [Call.process 5, Call.setDelayTime 1] _ rfl [7, 8, 9]

/-- C2 as stated fails: on a new line with `setSize (44100)` and `setDelayTime (22050)`
fed a unit impulse, the 22050th call returns `0.0`, not `1.0`; the `1.0` comes out of
the 22051st call. -/
theorem impulse_22050th_call_is_zero :
    ∃ d0 ys d1, setSize (fresh blank) 44100 = some d0 ∧
      processAll (setDelayTime d0 22050) (impulse 22051) = some (ys, d1) ∧
      ys[22049]? = some 0 ∧ ys[22049]? ≠ some 1 ∧ ys[22050]? = some 1 := by
  obtain ⟨d0, d1, h0, hp⟩ := impulse_general 44100 22050 (by omega) (by omega) blank 22051
  refine ⟨d0, _, d1, h0, hp, ?_, ?_, ?_⟩
  · rw [List.getElem?_map, List.getElem?_range (by omega)]
    rfl
  · rw [List.getElem?_map, List.getElem?_range (by omega)]
    simp
  · rw [List.getElem?_map, List.getElem?_range (by omega)]
    rfl

/-- C2 amended (impulse scenario).  On a new line with `setSize (44100)` followed by
`setDelayTime (22050)`, fed `1.0` and then `0.0` on every later call, every run of `n`
calls succeeds and returns `1.0` at call number 22050 counting from zero, that is on the
22051st call, and `0.0` on every other call. -/
theorem impulse_response (junk : Delay ℚ) (n : Nat) :
    ∃ d0 d1, setSize (fresh junk) 44100 = some d0 ∧
      processAll (setDelayTime d0 22050) (impulse n)
        = some ((List.range n).map (fun k => if k = 22050 then (1 : ℚ) else 0), d1) :=
  impulse_general 44100 22050 (by omega) (by omega) junk n

/-- C3 (cursor invariant after retune).  On a line of capacity `c > 0` reached from
`setSize` by any run of `process` and `setDelayTime` calls, right after
`setDelayTime l` with `0 ≤ l ≤ c` the read cursor is `(writePos - l + c) mod c` with the
non-negative remainder, and the write cursor is the one from before the call. -/
theorem cursor_after_retune [Zero α] (c : Nat) (hc : 0 < c) (junk : Delay α)
    (calls : List (Call α)) (d : Delay α)
    (hrun : (setSize (fresh junk) (c : Int)).bind (fun d0 => run d0 calls) = some d)
    (l : Int) (hl0 : 0 ≤ l) (hl1 : l ≤ c) :
    (setDelayTime d l).readPos = ((setDelayTime d l).writePos - l + c) % c ∧
      0 ≤ (setDelayTime d l).readPos ∧
      (setDelayTime d l).writePos = d.writePos := by
  obtain ⟨hR, hsz⟩ := reached_ready c hc junk calls d hrun
  have hr := setDelayTime_readPos d l hR hl0 (by omega)
  have hci : (0 : Int) < c := by omega
  refine ⟨?_, ?_, rfl⟩
  · rw [hr, hsz]
    show (d.writePos - l) % (c : Int) = (d.writePos - l + c) % c
    rw [Int.add_emod_self]
  · rw [hr, hsz]
    exact Int.emod_nonneg _ hci.ne'

/-- Witness for C3: capacity 4, write cursor at 1 after one `process`, retune to 3. -/
theorem cursor_after_retune_witness :
    (setDelayTime demo4 3).readPos
      = ((setDelayTime demo4 3).writePos - 3 + ((4 : Nat) : Int)) % ((4 : Nat) : Int) ∧
      0 ≤ (setDelayTime demo4 3).readPos ∧
      (setDelayTime demo4 3).writePos = 1 :=
  cursor_after_retune 4 (by decide)
    scrap
    [Call.process 5, Call.setDelayTime 1] _ rfl 3 (by decide) (by decide)

/-- C4 (cursor range invariant).  Starting from `setSize c` with `c > 0`, every run of
`process` calls and `setDelayTime l` calls with `0 ≤ l ≤ c` succeeds, so no call in it
touches the buffer outside its bounds, and afterwards both cursors lie in `[0, c)`, the
buffer still has `c` slots and one more `process` call succeeds as well. -/
theorem cursors_in_range [Zero α] (c : Nat) (hc : 0 < c) (junk : Delay α)
    (calls : List (Call α)) (hv : ∀ k ∈ calls, Call.Valid (c : Int) k) :
    ∃ d, (setSize (fresh junk) (c : Int)).bind (fun d0 => run d0 calls) = some d ∧
      d.size = c ∧ d.buffer.length = c ∧
      0 ≤ d.readPos ∧ d.readPos < c ∧ 0 ≤ d.writePos ∧ d.writePos < c ∧
      ∀ x, ∃ y d1, process d x = some (y, d1) := by
  have hci : (0 : Int) < c := by omega
  have hin : InRange ({ junk with
      buffer := List.replicate c 0, size := c, readPos := 0, writePos := 0 } : Delay α) :=
    ⟨⟨hci, by simp, le_refl _, hci⟩, le_refl _, hci⟩
  obtain ⟨d, hr, hd, hsz⟩ := run_inRange calls _ hin hv
  have hsz1 : d.size = (c : Int) := hsz
  refine ⟨d, by rw [setSize_fresh, Option.some_bind]; exact hr, hsz1, ?_, ?_, ?_, ?_, ?_, ?_⟩
  · have := hd.toReady.length_eq
    omega
  · exact hd.read_lo
  · have := hd.read_hi
    omega
  · exact hd.toReady.write_lo
  · have := hd.toReady.write_hi
    omega
  · intro x
    obtain ⟨out, -, hp⟩ := process_eq d x hd
    exact ⟨out, _, hp⟩

/-- Witness for C4: capacity 3 with retunes to the two extreme lengths 3 and 0. -/
theorem cursors_in_range_witness :
    ∃ d : Delay Int, (setSize (fresh scrap)
        ((3 : Nat) : Int)).bind (fun d0 => run d0
          [Call.process 5, Call.setDelayTime 3, Call.process 6, Call.setDelayTime 0]) = some d ∧
      d.size = (3 : Nat) ∧ d.buffer.length = 3 ∧
      0 ≤ d.readPos ∧ d.readPos < (3 : Nat) ∧ 0 ≤ d.writePos ∧ d.writePos < (3 : Nat) ∧
      ∀ x, ∃ y d1, process d x = some (y, d1) :=
  cursors_in_range 3 (by decide) _ _ (by
    intro k hk
    simp only [List.mem_cons, List.mem_singleton, List.not_mem_nil, or_false] at hk
    rcases hk with rfl | rfl | rfl | rfl <;> simp [Call.Valid])

/-- C5 (one `process` call).  On a line of positive capacity with both cursors in
range, `process x` returns the sample that was under the read cursor before the call
(whether or not the two cursors coincide), puts `x` under the old write cursor, leaves
every other slot as it was, and moves each cursor to `(old cursor + 1) mod size`. -/
theorem process_contract (d : Delay α) (x : α) (h : InRange d) :
    ∃ out d1, process d x = some (out, d1) ∧
      load d.buffer d.readPos = some out ∧
      load d1.buffer d.writePos = some x ∧
      (∀ i, i ≠ d.writePos → load d1.buffer i = load d.buffer i) ∧
      d1.buffer.length = d.buffer.length ∧
      d1.readPos = (d.readPos + 1) % d.size ∧
      d1.writePos = (d.writePos + 1) % d.size ∧
      d1.size = d.size := by
  obtain ⟨out, hload, hp⟩ := process_eq d x h
  obtain ⟨⟨hs, hl, hw0, hw1⟩, hr0, hr1⟩ := h
  refine ⟨out, _, hp, hload, load_set_same _ _ _ hw0 (by omega), ?_, ?_, ?_, ?_, rfl⟩
  · intro i hi
    exact load_set_other _ _ _ _ hw0 hi
  · simp
  · show (if d.readPos + 1 ≥ d.size then 0 else d.readPos + 1) = (d.readPos + 1) % d.size
    rw [emod_window _ _ hs (by omega) (by omega)]
    split_ifs <;> omega
  · show (if d.writePos + 1 ≥ d.size then 0 else d.writePos + 1) = (d.writePos + 1) % d.size
    rw [emod_window _ _ hs (by omega) (by omega)]
    split_ifs <;> omega

/-- Witness for C5: capacity 3 with both cursors on the last slot. -/
theorem process_contract_witness :
    ∃ out d1, process demo3 9 = some (out, d1) ∧
      load [1, 2, 3] 2 = some out ∧
      load d1.buffer 2 = some 9 ∧
      (∀ i, i ≠ 2 → load d1.buffer i = load [1, 2, 3] i) ∧
      d1.buffer.length = [1, 2, 3].length ∧
      d1.readPos = (2 + 1) % 3 ∧
      d1.writePos = (2 + 1) % 3 ∧
      d1.size = 3 :=
  process_contract demo3 9 ⟨⟨by decide, by decide, by decide, by decide⟩, by decide, by decide⟩

end Delay

/-! ## Theorems about the voices -/

theorem Random.nextInt_two (r : Random) : (r.nextInt 2).1 = 0 ∨ (r.nextInt 2).1 = 1 :=
  Int.emod_two_eq _

namespace MySynthVoice

/-- C6 (no-silence invariant).  After `setEnv`, for every velocity, every note number and
every state of the random source, each of `triVolume`, `sineVolume`, `sqVolume` is `0`
or `1`, `oscCount` is their sum, and `oscCount ≥ 1`. -/
theorem no_silence (v : MySynthVoice) (velocity : ℚ) (midiNoteNumber : Int) :
    ((v.setEnv velocity midiNoteNumber).triVolume = 0
        ∨ (v.setEnv velocity midiNoteNumber).triVolume = 1) ∧
      ((v.setEnv velocity midiNoteNumber).sineVolume = 0
        ∨ (v.setEnv velocity midiNoteNumber).sineVolume = 1) ∧
      ((v.setEnv velocity midiNoteNumber).sqVolume = 0
        ∨ (v.setEnv velocity midiNoteNumber).sqVolume = 1) ∧
      (v.setEnv velocity midiNoteNumber).oscCount
        = (v.setEnv velocity midiNoteNumber).triVolume
          + (v.setEnv velocity midiNoteNumber).sineVolume
          + (v.setEnv velocity midiNoteNumber).sqVolume ∧
      1 ≤ (v.setEnv velocity midiNoteNumber).oscCount := by
  have h1 := Random.nextInt_two v.random
  have h2 := Random.nextInt_two (v.random.nextInt 2).2
  have h3 := Random.nextInt_two ((v.random.nextInt 2).2.nextInt 2).2
  unfold setEnv
  by_cases hm : midiNoteNumber > 23
  · simp only [hm, if_true]
    split_ifs with ha hb hc
    all_goals dsimp only at *
    all_goals omega
  · simp only [hm, if_false, clearCurrentNote]
    decide

/-- C7 (low-register policy).  For every note number `≤ 23` and every velocity, after
`startNote` the mask is triangle on, sine off, square off, `oscCount = 1`, and the
release in `envParams` and in the envelope generator is `velocity * 12.0`. -/
theorem low_register (host : Host) (v : MySynthVoice) (midiNoteNumber : Int) (velocity : ℚ)
    (hm : midiNoteNumber ≤ 23) :
    (v.startNote host midiNoteNumber velocity).triVolume = 1 ∧
      (v.startNote host midiNoteNumber velocity).sineVolume = 0 ∧
      (v.startNote host midiNoteNumber velocity).sqVolume = 0 ∧
      (v.startNote host midiNoteNumber velocity).oscCount = 1 ∧
      (v.startNote host midiNoteNumber velocity).envParams.release = velocity * 12.0 ∧
      (v.startNote host midiNoteNumber velocity).env.parameters.release = velocity * 12.0 := by
  have hn : ¬ midiNoteNumber > 23 := by omega
  simp only [startNote, setEnv, setFrequencyVelocity, hn, if_false, clearCurrentNote,
    ADSR.setParameters, ADSR.reset, ADSR.noteOn]
  refine ⟨?_, ?_, ?_, ?_, ?_, ?_⟩ <;> trivial

/-- Witness for C7: `startNote (20, 0.5)` gives the triangle-only mask and release `6.0`. -/
theorem low_register_witness :
    (MySynthVoice.demo.startNote Host.demo 20 0.5).triVolume = 1 ∧
      (MySynthVoice.demo.startNote Host.demo 20 0.5).sineVolume = 0 ∧
      (MySynthVoice.demo.startNote Host.demo 20 0.5).sqVolume = 0 ∧
      (MySynthVoice.demo.startNote Host.demo 20 0.5).oscCount = 1 ∧
      (MySynthVoice.demo.startNote Host.demo 20 0.5).envParams.release = 6 ∧
      (MySynthVoice.demo.startNote Host.demo 20 0.5).env.parameters.release = 6 := by
  have h := low_register Host.demo MySynthVoice.demo 20 0.5 (by decide)
  have e : (0.5 : ℚ) * 12.0 = 6 := by norm_num
  rw [e] at h
  exact h

/-- C8 (high register, soft velocity).  For every note number `> 23` and every velocity
`≤ 0.6`, after `startNote` the release in `envParams` and in the envelope generator is
`velocity * 5.0` whatever the random source holds, and attack, decay and sustain are the
ones from before the call: the branch that draws them at random is not taken. -/
theorem soft_velocity (host : Host) (v : MySynthVoice) (midiNoteNumber : Int) (velocity : ℚ)
    (hm : midiNoteNumber > 23) (hv : velocity ≤ 0.6) :
    (v.startNote host midiNoteNumber velocity).envParams.release = velocity * 5.0 ∧
      (v.startNote host midiNoteNumber velocity).env.parameters.release = velocity * 5.0 ∧
      (v.startNote host midiNoteNumber velocity).envParams.attack = v.envParams.attack ∧
      (v.startNote host midiNoteNumber velocity).envParams.decay = v.envParams.decay ∧
      (v.startNote host midiNoteNumber velocity).envParams.sustain = v.envParams.sustain := by
  have hn : ¬ velocity > 0.6 := not_lt.mpr hv
  simp only [startNote, setEnv, setFrequencyVelocity, hm, hn, if_true, if_false,
    ADSR.setParameters, ADSR.reset, ADSR.noteOn]
  split_ifs <;> refine ⟨?_, ?_, ?_, ?_, ?_⟩ <;> trivial

/-- Witness for C8: `startNote (40, 0.0)` gives release `0.0`. -/
theorem soft_velocity_witness :
    (MySynthVoice.demo.startNote Host.demo 40 0.0).envParams.release = 0 ∧
      (MySynthVoice.demo.startNote Host.demo 40 0.0).env.parameters.release = 0 ∧
      (MySynthVoice.demo.startNote Host.demo 40 0.0).envParams.attack = 2 ∧
      (MySynthVoice.demo.startNote Host.demo 40 0.0).envParams.decay = 3 / 4 ∧
      (MySynthVoice.demo.startNote Host.demo 40 0.0).envParams.sustain = 1 / 4 := by
  have h := soft_velocity Host.demo MySynthVoice.demo 40 0.0 (by decide) (by norm_num)
  have e : (0.0 : ℚ) * 5.0 = 0 := by norm_num
  rw [e] at h
  exact h

/-- A voice that is not playing is left alone by `renderNextBlock`, and so is the buffer. -/
theorem renderNextBlock_idle (v : MySynthVoice) (h : v.playing = false)
    (outputBuffer : AudioSampleBuffer) (startSample numSamples : Int) :
    v.renderNextBlock outputBuffer startSample numSamples = some (v, outputBuffer) := by
  simp [renderNextBlock, h]

/-- A voice that is not playing stays so through every run of `stopNote` and
`renderNextBlock` calls, and every buffer of the run comes back as it went in. -/
theorem perform_idle (calls : List VoiceCall) (v : MySynthVoice) (h : v.playing = false) :
    ∃ v1, v.perform calls = some (v1, VoiceCall.buffers calls) ∧ v1.playing = false := by
  induction calls generalizing v with
  | nil => exact ⟨v, rfl, h⟩
  | cons c cs ih =>
    cases c with
    | stopNote allowTailOff =>
      have h1 : (v.stopNote allowTailOff).playing = false := by
        cases allowTailOff <;> simp [stopNote, clearCurrentNote, h]
      obtain ⟨v1, hp, hq⟩ := ih _ h1
      exact ⟨v1, by simpa only [perform, VoiceCall.buffers] using hp, hq⟩
    | renderNextBlock outputBuffer startSample numSamples =>
      obtain ⟨v1, hp, hq⟩ := ih v h
      refine ⟨v1, ?_, hq⟩
      simp only [perform, VoiceCall.buffers, renderNextBlock_idle v h, hp]

/-- One pass of the DSP loop never changes `ending` and never switches `playing` on. -/
theorem renderSample_flags (g : ℚ) (v v1 : MySynthVoice) (out out1 : AudioSampleBuffer)
    (i : Int) (h : renderSample g v out i = some (v1, out1)) :
    v1.ending = v.ending ∧ (v.playing = false → v1.playing = false) := by
  unfold renderSample at h
  dsimp only at h
  split at h
  · cases h
  · split at h
    · cases h
    · split at h
      · cases h
      · simp only [Option.some.injEq, Prod.mk.injEq] at h
        obtain ⟨rfl, -⟩ := h
        split_ifs <;> simp

/-- The DSP loop never changes `ending` and never switches `playing` on. -/
theorem renderLoop_flags (g : ℚ) (n : Nat) (v v1 : MySynthVoice)
    (out out1 : AudioSampleBuffer) (i : Int) (h : renderLoop g v out i n = some (v1, out1)) :
    v1.ending = v.ending ∧ (v.playing = false → v1.playing = false) := by
  induction n generalizing v out i with
  | zero =>
    simp only [renderLoop, Option.some.injEq, Prod.mk.injEq] at h
    obtain ⟨rfl, -⟩ := h
    exact ⟨rfl, id⟩
  | succ n ih =>
    unfold renderLoop at h
    cases hs : renderSample g v out i with
    | none => simp [hs] at h
    | some r =>
      obtain ⟨v2, out2⟩ := r
      simp only [hs] at h
      obtain ⟨a1, a2⟩ := renderSample_flags g v v2 out out2 i hs
      obtain ⟨b1, b2⟩ := ih v2 out2 (i + 1) h
      exact ⟨b1.trans a1, fun hp => b2 (a2 hp)⟩

/-- The DSP loop over `m + n` samples is the loop over `m` followed by the loop over `n`. -/
theorem renderLoop_add (g : ℚ) (m n : Nat) (v : MySynthVoice) (out : AudioSampleBuffer)
    (i : Int) :
    renderLoop g v out i (m + n)
      = (renderLoop g v out i m).bind (fun r => renderLoop g r.1 r.2 (i + m) n) := by
  induction m generalizing v out i with
  | zero => simp [renderLoop]
  | succ m ih =>
    have e : m + 1 + n = (m + n) + 1 := by omega
    rw [e]
    simp only [renderLoop]
    cases hs : renderSample g v out i with
    | none => simp
    | some r =>
      obtain ⟨v2, out2⟩ := r
      simp only [ih]
      have e2 : i + 1 + (m : Int) = i + ((m + 1 : Nat) : Int) := by push_cast; ring
      rw [e2]

/-- The pass of the DSP loop in which a Releasing voice sees both `delayEnv` and `envVal`
below `0.0001` switches `playing` off. -/
theorem renderSample_stops (g : ℚ) (v v1 : MySynthVoice) (out out1 : AudioSampleBuffer)
    (i : Int) (delayEnv : ℚ) (di : Delay ℚ) (h : renderSample g v out i = some (v1, out1))
    (hend : v.ending = true)
    (hd : v.delay.process (v.env.getNextSample).1 = some (delayEnv, di))
    (he : (v.env.getNextSample).1 < 0.0001) (hde : delayEnv < 0.0001) :
    v1.playing = false := by
  unfold renderSample at h
  dsimp only at h
  rw [hd] at h
  dsimp only at h
  split at h
  · cases h
  · split at h
    · cases h
    · simp only [Option.some.injEq, Prod.mk.injEq] at h
      obtain ⟨rfl, -⟩ := h
      simp [hend, he, hde]

/-- Adding to a sample inside the buffer succeeds and keeps the shape of the buffer. -/
theorem addSample_ok (b : AudioSampleBuffer) (chan : Nat) (idx hi : Int) (x : ℚ)
    (hc : chan < b.length) (h0 : 0 ≤ idx) (h1 : idx < hi)
    (hP : ∀ row ∈ b, hi ≤ (row.length : Int)) :
    ∃ b1, AudioSampleBuffer.addSample b chan idx x = some b1 ∧ b1.length = b.length ∧
      ∀ row ∈ b1, hi ≤ (row.length : Int) := by
  obtain ⟨row, hrow, hmem⟩ : ∃ row, b[chan]? = some row ∧ row ∈ b :=
    ⟨b[chan], List.getElem?_eq_getElem hc, List.getElem_mem hc⟩
  have hlen := hP row hmem
  obtain ⟨old, hld⟩ : ∃ old, Delay.load row idx = some old :=
    ⟨_, Delay.load_eq_getElem row idx h0 (by omega)⟩
  have hst : Delay.store row idx (old + x) = some (row.set idx.toNat (old + x)) := by
    have : idx.toNat < row.length := by omega
    simp [Delay.store, h0, this]
  refine ⟨b.set chan (row.set idx.toNat (old + x)), ?_, ?_, ?_⟩
  · simp only [AudioSampleBuffer.addSample, hrow, hld, hst]
  · exact List.length_set _ _ _
  · intro r hr
    rcases List.mem_or_eq_of_mem_set hr with h | h
    · exact hP r h
    · rw [h, List.length_set]
      exact hlen

/-- The channel loop succeeds on a buffer that has room for the sample index. -/
theorem foldlM_addSample_ok (idx hi : Int) (x : ℚ) (h0 : 0 ≤ idx) (h1 : idx < hi)
    (chans : List Nat) (b : AudioSampleBuffer) (hc : ∀ c ∈ chans, c < b.length)
    (hP : ∀ row ∈ b, hi ≤ (row.length : Int)) :
    ∃ b1, chans.foldlM (fun acc chan => AudioSampleBuffer.addSample acc chan idx x) b
        = some b1 ∧ b1.length = b.length ∧ ∀ row ∈ b1, hi ≤ (row.length : Int) := by
  induction chans generalizing b with
  | nil => exact ⟨b, rfl, rfl, hP⟩
  | cons c cs ih =>
    obtain ⟨b1, hb1, hl1, hP1⟩ :=
      addSample_ok b c idx hi x (hc c (List.mem_cons_self _ _)) h0 h1 hP
    obtain ⟨b2, hb2, hl2, hP2⟩ := ih b1
      (fun k hk => by rw [hl1]; exact hc k (List.mem_cons_of_mem _ hk)) hP1
    refine ⟨b2, ?_, hl2.trans hl1, hP2⟩
    rw [List.foldlM_cons, hb1]
    exact hb2

/-- The channel loop of the primary voice succeeds on a buffer that has room for the
sample index, and keeps that room. -/
theorem addToChannels_ok (b : AudioSampleBuffer) (idx hi : Int) (x : ℚ) (h0 : 0 ≤ idx)
    (h1 : idx < hi) (hP : ∀ row ∈ b, hi ≤ (row.length : Int)) :
    ∃ b1, addToChannels b idx x = some b1 ∧ ∀ row ∈ b1, hi ≤ (row.length : Int) := by
  obtain ⟨b1, hb1, -, hP1⟩ := foldlM_addSample_ok idx hi x h0 h1
    (List.range b.getNumChannels) b (fun c hc => List.mem_range.mp hc) hP
  exact ⟨b1, hb1, hP1⟩

/-- One `process` call on a line with both cursors in range succeeds and leaves both
cursors in range. -/
theorem process_inRange (d : Delay ℚ) (x : ℚ) (h : Delay.InRange d) :
    ∃ y d1, d.process x = some (y, d1) ∧ Delay.InRange d1 := by
  obtain ⟨d1, hr, hin, -⟩ := Delay.run_inRange [Delay.Call.process x] d h
    (fun c hc => by
      rw [List.mem_singleton] at hc
      subst hc
      trivial)
  cases hp : d.process x with
  | none => simp [Delay.run, Delay.step, hp] at hr
  | some r =>
    obtain ⟨y, d2⟩ := r
    simp only [Delay.run, Delay.step, hp, Option.map_some', Option.some.injEq] at hr
    subst hr
    exact ⟨y, d2, rfl, hin⟩

/-- One pass of the DSP loop succeeds when the delay line has its cursors in range and
the buffer has room for the sample index. -/
theorem renderSample_ok (g : ℚ) (v : MySynthVoice) (out : AudioSampleBuffer) (idx hi : Int)
    (hd : Delay.InRange v.delay) (h0 : 0 ≤ idx) (h1 : idx < hi)
    (hP : ∀ row ∈ out, hi ≤ (row.length : Int)) :
    ∃ v1 out1, renderSample g v out idx = some (v1, out1) ∧ Delay.InRange v1.delay ∧
      ∀ row ∈ out1, hi ≤ (row.length : Int) := by
  obtain ⟨y1, d1, hp1, hin1⟩ := process_inRange v.delay (v.env.getNextSample).1 hd
  unfold renderSample
  dsimp only
  rw [hp1]
  dsimp only
  obtain ⟨y2, d2, hp2, hin2⟩ := process_inRange d1
    ((((v.triOsc.process).1 * v.triVolume + (v.sineOsc.process).1 * v.sineVolume
      + (v.sqOsc.process).1 * v.sqVolume / 2) / v.oscCount + (v.detuneOsc.process).1) / 2)
    hin1
  rw [hp2]
  dsimp only
  obtain ⟨b1, hb1, hP1⟩ := addToChannels_ok out idx hi _ h0 h1 hP
  rw [hb1]
  refine ⟨_, b1, rfl, ?_, hP1⟩
  split_ifs <;> exact hin2

/-- The DSP loop succeeds when the delay line has its cursors in range and the buffer
has room for every sample index of the loop. -/
theorem renderLoop_ok (g : ℚ) (n : Nat) (v : MySynthVoice) (out : AudioSampleBuffer)
    (idx hi : Int) (hd : Delay.InRange v.delay) (h0 : 0 ≤ idx) (h1 : idx + n ≤ hi)
    (hP : ∀ row ∈ out, hi ≤ (row.length : Int)) :
    ∃ v1 out1, renderLoop g v out idx n = some (v1, out1) := by
  induction n generalizing v out idx with
  | zero => exact ⟨v, out, rfl⟩
  | succ n ih =>
    obtain ⟨v1, out1, hs, hd1, hP1⟩ :=
      renderSample_ok g v out idx hi hd h0 (by push_cast at h1; omega) hP
    obtain ⟨v2, out2, hl⟩ := ih v1 out1 (idx + 1) hd1 (by omega) (by push_cast at h1; omega) hP1
    exact ⟨v2, out2, by simp only [renderLoop, hs, hl]⟩

/-- The call `renderNextBlock` returns when the delay line has its cursors in range and
the buffer has room for the block. -/
theorem renderNextBlock_ok (v : MySynthVoice) (out : AudioSampleBuffer)
    (startSample numSamples : Int) (hd : Delay.InRange v.delay)
    (hb : out.Holds startSample numSamples) :
    ∃ v1 out1, v.renderNextBlock out startSample numSamples = some (v1, out1) := by
  unfold renderNextBlock
  split_ifs with hp
  · by_cases hn : 0 ≤ numSamples
    · exact renderLoop_ok _ _ _ out startSample (startSample + numSamples) hd hb.1
        (by omega) hb.2
    · have e : numSamples.toNat = 0 := by omega
      rw [e]
      exact ⟨_, out, rfl⟩
  · exact ⟨v, out, rfl⟩

/-- Once both values are below the threshold in some pass of a call on a playing,
Releasing voice, the voice is not playing when the call returns. -/
theorem renderNextBlock_stops (v v1 : MySynthVoice) (out out1 : AudioSampleBuffer)
    (startSample numSamples : Int) (pass : Nat) (delayEnv envVal : ℚ)
    (hplay : v.playing = true) (hend : v.ending = true) (hpass : (pass : Int) < numSamples)
    (hin : v.thresholdInputs out startSample pass = some (delayEnv, envVal))
    (hde : delayEnv < 0.0001) (he : envVal < 0.0001)
    (hret : v.renderNextBlock out startSample numSamples = some (v1, out1)) :
    v1.playing = false := by
  have hn : numSamples.toNat = pass + ((numSamples.toNat - pass - 1) + 1) := by omega
  simp only [renderNextBlock, hplay, if_true] at hret
  rw [hn, renderLoop_add] at hret
  unfold thresholdInputs at hin
  cases hpre : renderLoop (renderSetup v).1 (renderSetup v).2 out startSample pass with
  | none => simp [hpre] at hin
  | some r =>
    obtain ⟨vi, outi⟩ := r
    simp only [hpre, Option.some_bind] at hret hin
    have hvi : vi.ending = true := by
      rw [(renderLoop_flags _ _ _ _ _ _ _ hpre).1]
      exact hend
    cases hd : vi.delay.process (vi.env.getNextSample).1 with
    | none => simp [hd] at hin
    | some q =>
      obtain ⟨de, di⟩ := q
      simp only [hd, Option.some.injEq, Prod.mk.injEq] at hin
      obtain ⟨rfl, rfl⟩ := hin
      unfold renderLoop at hret
      cases hs : renderSample (renderSetup v).1 vi outi (startSample + pass) with
      | none => simp [hs] at hret
      | some r2 =>
        obtain ⟨v2, out2⟩ := r2
        simp only [hs] at hret
        have h2 := renderSample_stops _ vi v2 outi out2 _ de di hs hvi hd he hde
        exact (renderLoop_flags _ _ _ _ _ _ _ hret).2 h2

/-! ### The release tail of `MySynthVoice.demo`, evaluated -/

theorem process_four_r2 (a b c d x : ℚ) (t : Int) :
    Delay.process
        { buffer := [a, b, c, d], size := 4, readPos := 2, writePos := 0,
          delayTimeInSamples := t } x
      = some (c,
        { buffer := [x, b, c, d], size := 4, readPos := 3, writePos := 1,
          delayTimeInSamples := t }) := rfl

theorem process_four_r3 (a b c d x : ℚ) (t : Int) :
    Delay.process
        { buffer := [a, b, c, d], size := 4, readPos := 3, writePos := 1,
          delayTimeInSamples := t } x
      = some (d,
        { buffer := [a, x, c, d], size := 4, readPos := 0, writePos := 2,
          delayTimeInSamples := t }) := rfl

theorem process_four_r0 (a b c d x : ℚ) (t : Int) :
    Delay.process
        { buffer := [a, b, c, d], size := 4, readPos := 0, writePos := 2,
          delayTimeInSamples := t } x
      = some (a,
        { buffer := [a, b, x, d], size := 4, readPos := 1, writePos := 3,
          delayTimeInSamples := t }) := rfl

theorem process_four_r1 (a b c d x : ℚ) (t : Int) :
    Delay.process
        { buffer := [a, b, c, d], size := 4, readPos := 1, writePos := 3,
          delayTimeInSamples := t } x
      = some (b,
        { buffer := [a, b, c, x], size := 4, readPos := 2, writePos := 0,
          delayTimeInSamples := t }) := rfl

theorem addToChannels_mono0 (a b c x : ℚ) :
    addToChannels [[a, b, c]] 0 x = some [[a + x, b, c]] := rfl

theorem addToChannels_mono1 (a b c x : ℚ) :
    addToChannels [[a, b, c]] 1 x = some [[a, b + x, c]] := rfl

theorem addToChannels_mono2 (a b c x : ℚ) :
    addToChannels [[a, b, c]] 2 x = some [[a, b, c + x]] := rfl

/-- In pass 1 of a three-sample block on `MySynthVoice.demo`, `delayEnv` is `0.00009` and
`envVal` is `0.00008`. -/
theorem demo_thresholdInputs :
    MySynthVoice.demo.thresholdInputs [[0, 0, 0]] 0 1 = some (9 / 100000, 8 / 100000) := by
  norm_num [thresholdInputs, renderSetup, renderLoop, renderSample, MySynthVoice.demo,
    ADSR.demo, ADSR.getNextSample, Source.pull, Source.const, Oscillator.const,
    Oscillator.process, Oscillator.setFrequency, SmoothedValue.setTargetValue,
    SmoothedValue.getNextValue, process_four_r2, process_four_r3, process_four_r0,
    process_four_r1, addToChannels_mono0, addToChannels_mono1, addToChannels_mono2]

/-- A three-sample block on `MySynthVoice.demo`: the buffer afterwards. -/
theorem demo_block_buffer :
    (MySynthVoice.demo.renderNextBlock [[0, 0, 0]] 0 3).map Prod.snd
      = some [[7 / 200000, 1 / 32000, 11 / 400000]] := by
  norm_num [renderNextBlock, renderSetup, renderLoop, renderSample, MySynthVoice.demo,
    ADSR.demo, ADSR.getNextSample, Source.pull, Source.const, Oscillator.const,
    Oscillator.process, Oscillator.setFrequency, SmoothedValue.setTargetValue,
    SmoothedValue.getNextValue, process_four_r2, process_four_r3, process_four_r0,
    process_four_r1, addToChannels_mono0, addToChannels_mono1, addToChannels_mono2]

/-- C9 as stated fails: `MySynthVoice.demo` is playing and Releasing, in pass 1 of a
three-sample block both `delayEnv = 0.00009` and `envVal = 0.00008` are below `0.0001`,
and still the call adds `11/400000` at sample index 2, later in the same block. -/
theorem release_block_keeps_adding :
    MySynthVoice.demo.playing = true ∧ MySynthVoice.demo.ending = true ∧
      MySynthVoice.demo.thresholdInputs [[0, 0, 0]] 0 1 = some (9 / 100000, 8 / 100000) ∧
      (9 / 100000 : ℚ) < 0.0001 ∧ (8 / 100000 : ℚ) < 0.0001 ∧
      (MySynthVoice.demo.renderNextBlock [[0, 0, 0]] 0 3).map Prod.snd
        = some [[7 / 200000, 1 / 32000, 11 / 400000]] ∧
      (11 / 400000 : ℚ) ≠ 0 :=
  ⟨rfl, rfl, demo_thresholdInputs, by norm_num, by norm_num, demo_block_buffer, by norm_num⟩

/-- C9 amended (lifecycle termination).  For a playing voice in the Releasing state
whose delay line has its cursors in range, rendering into a buffer that has room for the
block: if in some pass of the `renderNextBlock` call both `delayEnv` and `envVal` are
below `0.0001`, then the call returns, the voice is Idle (`playing` false) when it
returns, and every later run of `renderNextBlock` and `stopNote` calls returns each
buffer as it went in. -/
theorem release_termination (v : MySynthVoice) (out : AudioSampleBuffer)
    (startSample numSamples : Int) (pass : Nat) (delayEnv envVal : ℚ)
    (hplay : v.playing = true) (hend : v.ending = true) (hd : Delay.InRange v.delay)
    (hb : out.Holds startSample numSamples) (hpass : (pass : Int) < numSamples)
    (hin : v.thresholdInputs out startSample pass = some (delayEnv, envVal))
    (hde : delayEnv < 0.0001) (he : envVal < 0.0001) :
    ∃ v1 out1, v.renderNextBlock out startSample numSamples = some (v1, out1) ∧
      v1.playing = false ∧
      ∀ calls, ∃ v2, v1.perform calls = some (v2, VoiceCall.buffers calls)
        ∧ v2.playing = false := by
  obtain ⟨v1, out1, hret⟩ := renderNextBlock_ok v out startSample numSamples hd hb
  have h := renderNextBlock_stops v v1 out out1 startSample numSamples pass delayEnv envVal
    hplay hend hpass hin hde he hret
  exact ⟨v1, out1, hret, h, fun calls => perform_idle calls v1 h⟩

/-- Witness for C9 amended: the three-sample block on `MySynthVoice.demo`, where the
threshold is met in pass 1. -/
theorem release_termination_witness :
    ∃ v1 out1, MySynthVoice.demo.renderNextBlock [[0, 0, 0]] 0 3 = some (v1, out1) ∧
      v1.playing = false ∧
      ∀ calls, ∃ v2, v1.perform calls = some (v2, VoiceCall.buffers calls)
        ∧ v2.playing = false :=
  release_termination MySynthVoice.demo [[0, 0, 0]] 0 3 1 (9 / 100000) (8 / 100000) rfl rfl
    ⟨⟨by decide, by decide, by decide, by decide⟩, by decide, by decide⟩
    ⟨by decide, by simp⟩ (by decide) demo_thresholdInputs (by norm_num) (by norm_num)

end MySynthVoice

namespace pulseSynthVoice

/-- A pulse voice that is not playing is left alone by `renderNextBlock`, and so is the
buffer. -/
theorem pulse_renderNextBlock_idle (v : pulseSynthVoice) (h : v.playing = false)
    (outputBuffer : AudioSampleBuffer) (startSample numSamples : Int) :
    v.renderNextBlock outputBuffer startSample numSamples = some (v, outputBuffer) := by
  simp [renderNextBlock, h]

/-- A pulse voice that is not playing stays so through every run of `stopNote` and
`renderNextBlock` calls, and every buffer of the run comes back as it went in. -/
theorem pulse_perform_idle (calls : List VoiceCall) (v : pulseSynthVoice)
    (h : v.playing = false) :
    ∃ v1, v.perform calls = some (v1, VoiceCall.buffers calls) ∧ v1.playing = false := by
  induction calls generalizing v with
  | nil => exact ⟨v, rfl, h⟩
  | cons c cs ih =>
    cases c with
    | stopNote allowTailOff =>
      have h1 : (v.stopNote allowTailOff).playing = false := by
        cases allowTailOff <;> simp [stopNote, clearCurrentNote, h]
      obtain ⟨v1, hp, hq⟩ := ih _ h1
      exact ⟨v1, by simpa only [perform, VoiceCall.buffers] using hp, hq⟩
    | renderNextBlock outputBuffer startSample numSamples =>
      obtain ⟨v1, hp, hq⟩ := ih v h
      refine ⟨v1, ?_, hq⟩
      simp only [perform, VoiceCall.buffers, pulse_renderNextBlock_idle v h, hp]

end pulseSynthVoice

/-- C10 (immediate stop).  In both voice variants and for every voice state: after
`stopNote (false)` the voice is Idle (`playing` false) and, through every following run
of `renderNextBlock` and `stopNote` calls (no `startNote`), each buffer comes back as it
went in and the voice stays Idle; after `stopNote (true)` the `playing` flag is as it was
before, so an audible voice stays audible, and `ending` is set. -/
theorem immediate_stop (v : MySynthVoice) (p : pulseSynthVoice) (calls : List VoiceCall) :
    ((v.stopNote false).playing = false ∧
      (∃ v1, (v.stopNote false).perform calls = some (v1, VoiceCall.buffers calls)
        ∧ v1.playing = false) ∧
      (v.stopNote true).playing = v.playing ∧ (v.stopNote true).ending = true) ∧
    ((p.stopNote false).playing = false ∧
      (∃ p1, (p.stopNote false).perform calls = some (p1, VoiceCall.buffers calls)
        ∧ p1.playing = false) ∧
      (p.stopNote true).playing = p.playing ∧ (p.stopNote true).ending = true) :=
  ⟨⟨rfl, MySynthVoice.perform_idle calls _ rfl, rfl, rfl⟩,
    ⟨rfl, pulseSynthVoice.pulse_perform_idle calls _ rfl, rfl, rfl⟩⟩

/-! ## Theorems about note-on and the envelope policy -/

namespace MySynthVoice

/-- The delay line after `startNote`: the old line retuned to the truncation of
`velocity * sr`; neither `setEnv` nor `setFrequencyVelocity` touches it. -/
theorem startNote_delay (host : Host) (v : MySynthVoice) (midiNoteNumber : Int)
    (velocity : ℚ) :
    (v.startNote host midiNoteNumber velocity).delay
      = v.delay.setDelayTime (toInt (velocity * v.sr)) := by
  simp only [startNote, setEnv, setFrequencyVelocity, clearCurrentNote]
  split_ifs <;> rfl

/-- The conversion `toInt` of a non-negative value is its floor. -/
theorem toInt_of_nonneg (x : ℚ) (h : 0 ≤ x) : toInt x = ⌊x⌋ := by
  simp [toInt, h]

/-- C11 (monotonic delay versus velocity).  For a positive sample rate `sr` the delay
length `startNote` hands to `setDelayTime` is `velocity * sr` with the fraction cut off,
and for velocities `0 ≤ v1 ≤ v2` (in particular inside `[0, 1]`) the length for `v1` is
at most the length for `v2`. -/
theorem delay_monotone (host : Host) (v : MySynthVoice) (m1 m2 : Int) (v1 v2 : ℚ)
    (hsr : 0 < v.sr) (h0 : 0 ≤ v1) (h12 : v1 ≤ v2) :
    (v.startNote host m1 v1).delay.delayTimeInSamples = toInt (v1 * v.sr) ∧
      0 ≤ toInt (v1 * v.sr) ∧
      (toInt (v1 * v.sr) : ℚ) ≤ v1 * v.sr ∧ v1 * v.sr < toInt (v1 * v.sr) + 1 ∧
      (v.startNote host m1 v1).delay.delayTimeInSamples
        ≤ (v.startNote host m2 v2).delay.delayTimeInSamples := by
  have hx1 : 0 ≤ v1 * v.sr := mul_nonneg h0 hsr.le
  have hx2 : 0 ≤ v2 * v.sr := mul_nonneg (h0.trans h12) hsr.le
  have hle : v1 * v.sr ≤ v2 * v.sr := mul_le_mul_of_nonneg_right h12 hsr.le
  rw [startNote_delay, startNote_delay]
  refine ⟨rfl, ?_, ?_, ?_, ?_⟩
  · rw [toInt_of_nonneg _ hx1]
    exact Int.floor_nonneg.mpr hx1
  · rw [toInt_of_nonneg _ hx1]
    exact Int.floor_le _
  · rw [toInt_of_nonneg _ hx1]
    exact Int.lt_floor_add_one _
  · show toInt (v1 * v.sr) ≤ toInt (v2 * v.sr)
    rw [toInt_of_nonneg _ hx1, toInt_of_nonneg _ hx2]
    exact Int.floor_le_floor hle

/-- Witness for C11: sample rate 4, velocities `0.25` and `0.5`. -/
theorem delay_monotone_witness :
    (MySynthVoice.demo.startNote Host.demo 20 (1 / 4)).delay.delayTimeInSamples
        = toInt (1 / 4 * MySynthVoice.demo.sr) ∧
      0 ≤ toInt (1 / 4 * MySynthVoice.demo.sr) ∧
      (toInt (1 / 4 * MySynthVoice.demo.sr) : ℚ) ≤ 1 / 4 * MySynthVoice.demo.sr ∧
      1 / 4 * MySynthVoice.demo.sr < toInt (1 / 4 * MySynthVoice.demo.sr) + 1 ∧
      (MySynthVoice.demo.startNote Host.demo 20 (1 / 4)).delay.delayTimeInSamples
        ≤ (MySynthVoice.demo.startNote Host.demo 40 (1 / 2)).delay.delayTimeInSamples :=
  delay_monotone Host.demo MySynthVoice.demo 20 40 (1 / 4) (1 / 2)
    (by norm_num [MySynthVoice.demo]) (by norm_num) (by norm_num)

/-- After `setEnv` the envelope generator holds the parameters of `envParams`. -/
theorem setEnv_parameters (v : MySynthVoice) (velocity : ℚ) (midiNoteNumber : Int) :
    (v.setEnv velocity midiNoteNumber).env.parameters
      = (v.setEnv velocity midiNoteNumber).envParams := by
  unfold setEnv
  by_cases hm : midiNoteNumber > 23
  · by_cases hh : velocity > 0.6
    · simp only [hm, hh, if_true]
      split_ifs <;> rfl
    · simp only [hm, hh, if_true, if_false]
      split_ifs <;> rfl
  · simp only [hm, if_false]
    rfl

/-- The envelope parameters `setEnv` leaves in the high register at a velocity above
`0.6`: attack, sustain and release come from the three float draws that follow the three
coin flips, decay is kept. -/
theorem setEnv_hard (v : MySynthVoice) (velocity : ℚ) (midiNoteNumber : Int)
    (hm : midiNoteNumber > 23) (hh : velocity > 0.6) :
    (v.setEnv velocity midiNoteNumber).envParams =
      { attack := jmap ((((v.random.nextInt 2).2.nextInt 2).2.nextInt 2).2.nextFloat).1
          0.01 0.05
        decay := v.envParams.decay
        sustain := jmap
          (((((v.random.nextInt 2).2.nextInt 2).2.nextInt 2).2.nextFloat).2.nextFloat).1
          0.01 0.05
        release := jmap
          ((((((v.random.nextInt 2).2.nextInt 2).2.nextInt 2).2.nextFloat).2.nextFloat).2.nextFloat).1
          0.25 0.75 } := by
  unfold setEnv
  simp only [hm, hh, if_true]
  split_ifs <;> rfl

/-- The envelope parameters `setEnv` leaves in the high register at a velocity of at
most `0.6`: only the release is set. -/
theorem setEnv_soft (v : MySynthVoice) (velocity : ℚ) (midiNoteNumber : Int)
    (hm : midiNoteNumber > 23) (hh : ¬ velocity > 0.6) :
    (v.setEnv velocity midiNoteNumber).envParams
      = { v.envParams with release := velocity * 5.0 } := by
  unfold setEnv
  simp only [hm, hh, if_true, if_false]
  split_ifs <;> rfl

/-- The envelope parameters `setEnv` leaves in the low register: only the release is
set. -/
theorem setEnv_low (v : MySynthVoice) (velocity : ℚ) (midiNoteNumber : Int)
    (hm : ¬ midiNoteNumber > 23) :
    (v.setEnv velocity midiNoteNumber).envParams
      = { v.envParams with release := velocity * 12.0 } := by
  unfold setEnv
  simp only [hm, if_false]
  rfl

/-- The three values a float draw can be mapped to lie in the half-open target range. -/
theorem jmap_fract_bounds (r : Random) (lo hi : ℚ) (h : lo < hi) :
    lo ≤ jmap (r.nextFloat).1 lo hi ∧ jmap (r.nextFloat).1 lo hi < hi := by
  have h0 : 0 ≤ Int.fract (r.floats r.draws) := Int.fract_nonneg _
  have h1 : Int.fract (r.floats r.draws) < 1 := Int.fract_lt_one _
  have hd : 0 < hi - lo := sub_pos.mpr h
  simp only [jmap, Random.nextFloat]
  constructor
  · nlinarith
  · nlinarith

/-- C12 as stated fails: at velocity `0.0`, which lies in `[0, 1]`, the release `setEnv`
hands to the envelope generator is exactly `0`, in the high register (note 40) and in
the low register (note 20). -/
theorem zero_velocity_zero_release :
    (0 : ℚ) ≤ 0 ∧ (0 : ℚ) ≤ 1 ∧
      (MySynthVoice.demo.setEnv 0 40).env.parameters.release = 0 ∧
      (MySynthVoice.demo.setEnv 0 20).env.parameters.release = 0 := by
  refine ⟨le_refl _, by norm_num, ?_, ?_⟩
  · norm_num [setEnv, ADSR.setParameters]
  · norm_num [setEnv, ADSR.setParameters, clearCurrentNote]

/-- The durations `setEnv` hands to the envelope generator on a voice whose `envParams`
hold a positive attack: the attack is positive at every velocity, the release is
positive at a positive velocity and `0` at velocity `0`, and the voice keeps a positive
attack in `envParams`. -/
theorem setEnv_durations (v : MySynthVoice) (velocity : ℚ) (midiNoteNumber : Int)
    (ha : 0 < v.envParams.attack) :
    0 < (v.setEnv velocity midiNoteNumber).envParams.attack ∧
      (0 < velocity → 0 < (v.setEnv velocity midiNoteNumber).envParams.release) ∧
      (velocity = 0 → (v.setEnv velocity midiNoteNumber).envParams.release = 0) ∧
      (v.setEnv velocity midiNoteNumber).env.parameters
        = (v.setEnv velocity midiNoteNumber).envParams := by
  have b1 := fun r => jmap_fract_bounds r 0.01 0.05 (by norm_num)
  have b2 := fun r => jmap_fract_bounds r 0.25 0.75 (by norm_num)
  refine ⟨?_, ?_, ?_, setEnv_parameters v velocity midiNoteNumber⟩
  · by_cases hm : midiNoteNumber > 23
    · by_cases hh : velocity > 0.6
      · rw [setEnv_hard v velocity midiNoteNumber hm hh]
        exact lt_of_lt_of_le (by norm_num) (b1 _).1
      · rw [setEnv_soft v velocity midiNoteNumber hm hh]
        exact ha
    · rw [setEnv_low v velocity midiNoteNumber hm]
      exact ha
  · intro hv
    have p5 : 0 < velocity * 5.0 := by positivity
    have p12 : 0 < velocity * 12.0 := by positivity
    by_cases hm : midiNoteNumber > 23
    · by_cases hh : velocity > 0.6
      · rw [setEnv_hard v velocity midiNoteNumber hm hh]
        exact lt_of_lt_of_le (by norm_num) (b2 _).1
      · rw [setEnv_soft v velocity midiNoteNumber hm hh]
        exact p5
    · rw [setEnv_low v velocity midiNoteNumber hm]
      exact p12
  · intro hv
    subst hv
    by_cases hm : midiNoteNumber > 23
    · have hh : ¬ (0 : ℚ) > 0.6 := by norm_num
      rw [setEnv_soft v 0 midiNoteNumber hm hh]
      exact zero_mul _
    · rw [setEnv_low v 0 midiNoteNumber hm]
      exact zero_mul _

end MySynthVoice

/-! ## Theorems about the checks the delay line does not make -/

namespace Delay

/-- C13 as stated fails: `setSize (0)` on a new object returns normally, with an empty
buffer, and every `process` call on the result is out of bounds. -/
theorem setSize_zero_accepted :
    setSize (fresh blank) 0 = some blank ∧ blank.buffer = [] ∧ process blank 1 = none :=
  ⟨rfl, rfl, rfl⟩

/-- C13 amended (`setSize`).  A negative size fails (the array allocation throws); size
`0` is accepted and gives an empty buffer on which every `process` call is out of
bounds; a positive size `c` gives a buffer of exactly `c` slots, all `0.0`, and leaves the
cursors alone. -/
theorem setSize_contract [Zero α] (d : Delay α) (c : Int) :
    (c < 0 → setSize d c = none) ∧
      (c = 0 → ∃ d1, setSize d c = some d1 ∧ d1.buffer = [] ∧ ∀ x, process d1 x = none) ∧
      (0 < c → ∃ d1, setSize d c = some d1 ∧ d1.size = c ∧ (d1.buffer.length : Int) = c ∧
        (∀ i, 0 ≤ i → i < c → load d1.buffer i = some 0) ∧
        d1.readPos = d.readPos ∧ d1.writePos = d.writePos) := by
  refine ⟨?_, ?_, ?_⟩
  · intro h
    simp [setSize, h]
  · intro h
    subst h
    refine ⟨{ d with size := 0, buffer := [] }, by simp [setSize], rfl, ?_⟩
    intro x
    simp [process, readVal, load]
  · intro h
    have hn : ¬ c < 0 := by omega
    refine ⟨{ d with size := c, buffer := List.replicate c.toNat 0 },
      by simp only [setSize, hn, if_false], rfl, ?_, ?_, rfl, rfl⟩
    · show ((List.replicate c.toNat (0 : α)).length : Int) = c
      simp
      omega
    · intro i h0 h1
      exact load_replicate_zero c.toNat i h0 (by omega)

/-- C14 as stated fails: on a line of capacity 3 with both cursors at 2,
`setDelayTime (7)` is accepted, records the length 7 and moves the read cursor to `-2`. -/
theorem overlong_retune_accepted :
    demo3.size = 3 ∧ demo3.readPos = 2 ∧ (7 : Int) > demo3.size ∧
      (setDelayTime demo3 7).delayTimeInSamples = 7 ∧
      (setDelayTime demo3 7).readPos = -2 ∧
      (setDelayTime demo3 7).readPos ≠ demo3.readPos := by
  decide

/-- C14 amended (`setDelayTime` makes no check).  On a line in use, `setDelayTime l` with
`l` greater than the capacity is accepted: the length `l` is recorded, the write cursor
stays, and the read cursor becomes `writePos - l + size`, corrected once and not clamped;
when `l > size + writePos` that cursor is negative and the next `process` call reads
outside the buffer. -/
theorem overlong_retune (d : Delay α) (l : Int) (h : Ready d) (hl : d.size < l) :
    (setDelayTime d l).delayTimeInSamples = l ∧
      (setDelayTime d l).writePos = d.writePos ∧
      (setDelayTime d l).buffer = d.buffer ∧
      (setDelayTime d l).readPos = d.writePos - l + d.size ∧
      (setDelayTime d l).readPos < d.writePos ∧
      (d.size + d.writePos < l →
        (setDelayTime d l).readPos < 0 ∧ ∀ x, process (setDelayTime d l) x = none) := by
  obtain ⟨hs, hlen, hw0, hw1⟩ := h
  have hneg : d.writePos - l < 0 := by omega
  have hr : (setDelayTime d l).readPos = d.writePos - l + d.size := by
    simp only [setDelayTime, hneg, if_true]
  refine ⟨rfl, rfl, rfl, hr, by rw [hr]; omega, ?_⟩
  intro h2
  have h3 : (setDelayTime d l).readPos < 0 := by rw [hr]; omega
  refine ⟨h3, fun x => ?_⟩
  have h4 : ¬ 0 ≤ (setDelayTime d l).readPos := by omega
  have h5 : load (setDelayTime d l).buffer (setDelayTime d l).readPos = none := by
    simp only [load, h4, if_false]
  simp only [process, readVal, h5]

/-- Witness for C14 amended: capacity 3, write cursor 2, length 7. -/
theorem overlong_retune_witness :
    (setDelayTime demo3 7).delayTimeInSamples = 7 ∧
      (setDelayTime demo3 7).writePos = demo3.writePos ∧
      (setDelayTime demo3 7).buffer = demo3.buffer ∧
      (setDelayTime demo3 7).readPos = demo3.writePos - 7 + demo3.size ∧
      (setDelayTime demo3 7).readPos < demo3.writePos ∧
      (demo3.size + demo3.writePos < 7 →
        (setDelayTime demo3 7).readPos < 0 ∧ ∀ x, process (setDelayTime demo3 7) x = none) :=
  overlong_retune demo3 7 ⟨by decide, by decide, by decide, by decide⟩ (by decide)

end Delay

namespace MySynthVoice

/-- What `init` leaves in `envParams` and in the envelope generator, whatever the
sample rate; the random source is not touched. -/
theorem init_envParams (v v1 : MySynthVoice) (sampleRate : ℚ)
    (h : v.init sampleRate = some v1) :
    v1.envParams = { attack := 2.0, decay := 0.75, sustain := 0.25, release := 3.0 } ∧
      v1.env.parameters = v1.envParams ∧ v1.random = v.random := by
  unfold init at h
  dsimp only at h
  split at h
  · cases h
  · simp only [Option.some.injEq] at h
    subst h
    exact ⟨rfl, rfl, rfl⟩

/-- The envelope parameters `setEnv` leaves depend on the voice only through the
parameters held before and the random source. -/
theorem setEnv_envParams_congr (v w : MySynthVoice) (velocity : ℚ) (midiNoteNumber : Int)
    (hp : v.envParams = w.envParams) (hr : v.random = w.random) :
    (v.setEnv velocity midiNoteNumber).envParams
      = (w.setEnv velocity midiNoteNumber).envParams := by
  by_cases hm : midiNoteNumber > 23
  · by_cases hh : velocity > 0.6
    · rw [setEnv_hard v _ _ hm hh, setEnv_hard w _ _ hm hh, hp, hr]
    · rw [setEnv_soft v _ _ hm hh, setEnv_soft w _ _ hm hh, hp]
  · rw [setEnv_low v _ _ hm, setEnv_low w _ _ hm, hp]

/-- The method `setFrequencyVelocity` leaves `envParams` and the envelope generator alone. -/
theorem setFrequencyVelocity_env (host : Host) (v : MySynthVoice) (velocity : ℚ)
    (midiNoteNumber : Int) :
    (v.setFrequencyVelocity host velocity midiNoteNumber).envParams = v.envParams ∧
      (v.setFrequencyVelocity host velocity midiNoteNumber).env = v.env := by
  unfold setFrequencyVelocity
  dsimp only
  split_ifs <;> exact ⟨rfl, rfl⟩

/-- The envelope parameters in force after `startNote` are the ones `setEnv` computes
from the parameters held before and the random source. -/
theorem startNote_envParams (host : Host) (v : MySynthVoice) (midiNoteNumber : Int)
    (velocity : ℚ) :
    (v.startNote host midiNoteNumber velocity).envParams
        = (v.setEnv velocity midiNoteNumber).envParams ∧
      (v.startNote host midiNoteNumber velocity).env.parameters
        = (v.setEnv velocity midiNoteNumber).envParams := by
  unfold startNote
  dsimp only [ADSR.reset, ADSR.noteOn]
  rw [(setFrequencyVelocity_env host _ _ _).1, (setFrequencyVelocity_env host _ _ _).2,
    setEnv_parameters]
  exact ⟨setEnv_envParams_congr _ _ _ _ rfl rfl, setEnv_envParams_congr _ _ _ _ rfl rfl⟩

end MySynthVoice

namespace MySynthVoice

theorem fract_half : Int.fract (1 / 2 : ℚ) = 1 / 2 := by
  rw [Int.fract_eq_iff]
  exact ⟨by norm_num, by norm_num, 0, by norm_num⟩

/-- The method `init` returns when the sample rate is not negative. -/
theorem init_ok (v : MySynthVoice) (sampleRate : ℚ) (h : 0 ≤ sampleRate) :
    ∃ v1, v.init sampleRate = some v1 := by
  have h1 : ¬ toInt sampleRate < 0 := by
    rw [toInt_of_nonneg _ h]
    exact not_lt.mpr (Int.floor_nonneg.mpr h)
  unfold init
  simp only [Delay.setSize, h1, if_false]
  exact ⟨_, rfl⟩

/-- C15, the code at the failing input.  Two voices are initialised alike with
`init (4)`.  The first receives `startNote (40, 0.5)` at once and ends with attack `2.0`
and sustain `0.25`.  The second has played `startNote (40, 0.9)` before; with the random
source put back to where it was, the same `startNote (40, 0.5)` leaves it with attack
`0.03` and sustain `0.03`: the values drawn for the earlier note are still in force. -/
theorem envelope_carried_over :
    (MySynthVoice.demo.init 4).map
        (fun v => ((v.startNote Host.demo 40 (1 / 2)).env.parameters.attack,
          (v.startNote Host.demo 40 (1 / 2)).env.parameters.sustain))
        = some (2, 1 / 4) ∧
      (MySynthVoice.demo.init 4).map
        (fun v =>
          ((({ v.startNote Host.demo 40 (9 / 10) with random := v.random } :
              MySynthVoice).startNote Host.demo 40 (1 / 2)).env.parameters.attack,
            (({ v.startNote Host.demo 40 (9 / 10) with random := v.random } :
              MySynthVoice).startNote Host.demo 40 (1 / 2)).env.parameters.sustain))
        = some (3 / 100, 3 / 100) := by
  obtain ⟨v1, hi⟩ := init_ok MySynthVoice.demo 4 (by norm_num)
  obtain ⟨hp, -, hr⟩ := init_envParams _ _ _ hi
  have hm : (40 : Int) > 23 := by decide
  have hs : ¬ ((1 / 2 : ℚ) > 0.6) := by norm_num
  have hh : (9 / 10 : ℚ) > 0.6 := by norm_num
  rw [hi]
  simp only [Option.map_some', Option.some.injEq, Prod.mk.injEq]
  refine ⟨⟨?_, ?_⟩, ?_, ?_⟩
  · rw [(startNote_envParams _ _ _ _).2, setEnv_soft _ _ _ hm hs, hp]
    norm_num
  · rw [(startNote_envParams _ _ _ _).2, setEnv_soft _ _ _ hm hs, hp]
    norm_num
  · rw [(startNote_envParams _ _ _ _).2, setEnv_soft _ _ _ hm hs]
    show (v1.startNote Host.demo 40 (9 / 10)).envParams.attack = 3 / 100
    rw [(startNote_envParams _ _ _ _).1, setEnv_hard _ _ _ hm hh, hr]
    simp only [jmap, Random.nextFloat, Random.nextInt, MySynthVoice.demo, Random.demo,
      fract_half]
    norm_num
  · rw [(startNote_envParams _ _ _ _).2, setEnv_soft _ _ _ hm hs]
    show (v1.startNote Host.demo 40 (9 / 10)).envParams.sustain = 3 / 100
    rw [(startNote_envParams _ _ _ _).1, setEnv_hard _ _ _ hm hh, hr]
    simp only [jmap, Random.nextFloat, Random.nextInt, MySynthVoice.demo, Random.demo,
      fract_half]
    norm_num

/-- One pass of the DSP loop leaves `playing` alone on a voice that is not ending. -/
theorem renderSample_sounding (g : ℚ) (v v1 : MySynthVoice) (out out1 : AudioSampleBuffer)
    (i : Int) (h : renderSample g v out i = some (v1, out1)) (hend : v.ending = false) :
    v1.playing = v.playing := by
  unfold renderSample at h
  dsimp only at h
  split at h
  · cases h
  · split at h
    · cases h
    · split at h
      · cases h
      · simp only [Option.some.injEq, Prod.mk.injEq] at h
        obtain ⟨rfl, -⟩ := h
        simp [hend]

/-- The DSP loop leaves `playing` alone on a voice that is not ending. -/
theorem renderLoop_sounding (g : ℚ) (n : Nat) (v v1 : MySynthVoice)
    (out out1 : AudioSampleBuffer) (i : Int) (h : renderLoop g v out i n = some (v1, out1))
    (hend : v.ending = false) : v1.playing = v.playing := by
  induction n generalizing v out i with
  | zero =>
    simp only [renderLoop, Option.some.injEq, Prod.mk.injEq] at h
    obtain ⟨rfl, -⟩ := h
    rfl
  | succ n ih =>
    unfold renderLoop at h
    cases hs : renderSample g v out i with
    | none => simp [hs] at h
    | some r =>
      obtain ⟨v2, out2⟩ := r
      simp only [hs] at h
      have e1 := renderSample_sounding g v v2 out out2 i hs hend
      have e2 := (renderSample_flags g v v2 out out2 i hs).1
      rw [ih v2 out2 (i + 1) h (e2.trans hend), e1]

/-- C18 (termination is checked only while Releasing).  A voice in the Sounding state
(`playing` true, `ending` false) whose delay line has its cursors in range, rendering into
a buffer that has room for the block: `renderNextBlock` returns and the voice is still
playing and not ending, whatever values the envelope and the delay line produce.  And
`startNote`, on any voice, sets `playing` and clears `ending`. -/
theorem sounding_never_stops (v : MySynthVoice) (out : AudioSampleBuffer)
    (startSample numSamples : Int) (hplay : v.playing = true) (hend : v.ending = false)
    (hd : Delay.InRange v.delay) (hb : out.Holds startSample numSamples)
    (host : Host) (w : MySynthVoice) (midiNoteNumber : Int) (velocity : ℚ) :
    (∃ v1 out1, v.renderNextBlock out startSample numSamples = some (v1, out1) ∧
        v1.playing = true ∧ v1.ending = false) ∧
      (w.startNote host midiNoteNumber velocity).playing = true ∧
      (w.startNote host midiNoteNumber velocity).ending = false := by
  refine ⟨?_, ?_, ?_⟩
  · obtain ⟨v1, out1, hret⟩ := renderNextBlock_ok v out startSample numSamples hd hb
    refine ⟨v1, out1, hret, ?_, ?_⟩
    · simp only [renderNextBlock, hplay, if_true] at hret
      rw [renderLoop_sounding _ _ _ _ _ _ _ hret hend]
      exact hplay
    · simp only [renderNextBlock, hplay, if_true] at hret
      rw [(renderLoop_flags _ _ _ _ _ _ _ hret).1]
      exact hend
  · simp only [startNote, setEnv, setFrequencyVelocity, clearCurrentNote]
    split_ifs <;> rfl
  · simp only [startNote, setEnv, setFrequencyVelocity, clearCurrentNote]
    split_ifs <;> rfl

/-- Witness for C18: a three-sample block on `MySynthVoice.sounding`, whose envelope
values are all below `0.0001`. -/
theorem sounding_never_stops_witness :
    (∃ v1 out1, MySynthVoice.sounding.renderNextBlock [[0, 0, 0]] 0 3 = some (v1, out1) ∧
        v1.playing = true ∧ v1.ending = false) ∧
      (MySynthVoice.demo.startNote Host.demo 40 0).playing = true ∧
      (MySynthVoice.demo.startNote Host.demo 40 0).ending = false :=
  sounding_never_stops MySynthVoice.sounding [[0, 0, 0]] 0 3 rfl rfl
    ⟨⟨by decide, by decide, by decide, by decide⟩, by decide, by decide⟩
    ⟨by decide, by simp⟩ Host.demo MySynthVoice.demo 40 0

/-- C19 (hard-velocity envelope ranges).  For every note number `> 23` and every velocity
`> 0.6`, `setEnv` sets attack, sustain and release to `lo + r * (hi - lo)` for three
draws `r` in `[0, 1)`, so attack and sustain lie in `[0.01, 0.05]` and release in
`[0.25, 0.75]`; the envelope generator receives the same values. -/
theorem hard_velocity_ranges (v : MySynthVoice) (velocity : ℚ) (midiNoteNumber : Int)
    (hm : midiNoteNumber > 23) (hv : velocity > 0.6) :
    (∃ r1 r2 r3 : ℚ, (0 ≤ r1 ∧ r1 < 1) ∧ (0 ≤ r2 ∧ r2 < 1) ∧ (0 ≤ r3 ∧ r3 < 1) ∧
        (v.setEnv velocity midiNoteNumber).envParams.attack = 0.01 + r1 * (0.05 - 0.01) ∧
        (v.setEnv velocity midiNoteNumber).envParams.sustain = 0.01 + r2 * (0.05 - 0.01) ∧
        (v.setEnv velocity midiNoteNumber).envParams.release = 0.25 + r3 * (0.75 - 0.25)) ∧
      (0.01 ≤ (v.setEnv velocity midiNoteNumber).envParams.attack ∧
        (v.setEnv velocity midiNoteNumber).envParams.attack ≤ 0.05) ∧
      (0.01 ≤ (v.setEnv velocity midiNoteNumber).envParams.sustain ∧
        (v.setEnv velocity midiNoteNumber).envParams.sustain ≤ 0.05) ∧
      (0.25 ≤ (v.setEnv velocity midiNoteNumber).envParams.release ∧
        (v.setEnv velocity midiNoteNumber).envParams.release ≤ 0.75) ∧
      (v.setEnv velocity midiNoteNumber).env.parameters
        = (v.setEnv velocity midiNoteNumber).envParams := by
  have b1 := fun r => jmap_fract_bounds r 0.01 0.05 (by norm_num)
  have b2 := fun r => jmap_fract_bounds r 0.25 0.75 (by norm_num)
  rw [setEnv_parameters, setEnv_hard v velocity midiNoteNumber hm hv]
  refine ⟨⟨_, _, _, ⟨Int.fract_nonneg _, Int.fract_lt_one _⟩,
    ⟨Int.fract_nonneg _, Int.fract_lt_one _⟩, ⟨Int.fract_nonneg _, Int.fract_lt_one _⟩,
    rfl, rfl, rfl⟩, ⟨(b1 _).1, (b1 _).2.le⟩, ⟨(b1 _).1, (b1 _).2.le⟩,
    ⟨(b2 _).1, (b2 _).2.le⟩, rfl⟩

/-- Witness for C19: note 40 at velocity `0.9` on `MySynthVoice.demo`. -/
theorem hard_velocity_ranges_witness :
    (∃ r1 r2 r3 : ℚ, (0 ≤ r1 ∧ r1 < 1) ∧ (0 ≤ r2 ∧ r2 < 1) ∧ (0 ≤ r3 ∧ r3 < 1) ∧
        (MySynthVoice.demo.setEnv (9 / 10) 40).envParams.attack = 0.01 + r1 * (0.05 - 0.01) ∧
        (MySynthVoice.demo.setEnv (9 / 10) 40).envParams.sustain = 0.01 + r2 * (0.05 - 0.01) ∧
        (MySynthVoice.demo.setEnv (9 / 10) 40).envParams.release
          = 0.25 + r3 * (0.75 - 0.25)) ∧
      (0.01 ≤ (MySynthVoice.demo.setEnv (9 / 10) 40).envParams.attack ∧
        (MySynthVoice.demo.setEnv (9 / 10) 40).envParams.attack ≤ 0.05) ∧
      (0.01 ≤ (MySynthVoice.demo.setEnv (9 / 10) 40).envParams.sustain ∧
        (MySynthVoice.demo.setEnv (9 / 10) 40).envParams.sustain ≤ 0.05) ∧
      (0.25 ≤ (MySynthVoice.demo.setEnv (9 / 10) 40).envParams.release ∧
        (MySynthVoice.demo.setEnv (9 / 10) 40).envParams.release ≤ 0.75) ∧
      (MySynthVoice.demo.setEnv (9 / 10) 40).env.parameters
        = (MySynthVoice.demo.setEnv (9 / 10) 40).envParams :=
  hard_velocity_ranges MySynthVoice.demo (9 / 10) 40 (by decide) (by norm_num)

/-- C20 (the low register does not depend on the random source).  For every note number
`≤ 23` and every velocity, `startNote` on two voices that differ only in the random
source leaves the same oscillator mask, `oscCount`, envelope parameters, delay line and
frequency, the frequency being that of note `midiNoteNumber + 24`; the two results
differ in nothing but the random source. -/
theorem low_register_ignores_random (host : Host) (v : MySynthVoice) (r1 r2 : Random)
    (midiNoteNumber : Int) (velocity : ℚ) (hm : midiNoteNumber ≤ 23) :
    (({ v with random := r1 } : MySynthVoice).startNote host midiNoteNumber velocity)
        = { (({ v with random := r2 } : MySynthVoice).startNote host midiNoteNumber velocity)
            with random := (r1.nextInt 2).2 } ∧
      (({ v with random := r1 } : MySynthVoice).startNote host midiNoteNumber velocity).freq
        = host.getMidiNoteInHertz (midiNoteNumber + 24) ∧
      (({ v with random := r1 } : MySynthVoice).startNote host midiNoteNumber velocity).delay
        = v.delay.setDelayTime (toInt (velocity * v.sr)) ∧
      (({ v with random := r1 } : MySynthVoice).startNote host midiNoteNumber velocity).envParams
        = { v.envParams with release := velocity * 12.0 } := by
  have hn : ¬ midiNoteNumber > 23 := by omega
  simp only [startNote, setEnv, setFrequencyVelocity, hn, if_false, clearCurrentNote,
    ADSR.setParameters, ADSR.reset, ADSR.noteOn, Oscillator.setFrequency]
  refine ⟨?_, ?_, ?_, ?_⟩ <;> trivial

/-- Witness for C20: note 20 at velocity `0.5` with the sources `Random.demo` and
`Random.other`. -/
theorem low_register_ignores_random_witness :
    (({ MySynthVoice.demo with random := Random.demo } : MySynthVoice).startNote
          Host.demo 20 (1 / 2))
        = { (({ MySynthVoice.demo with random := Random.other } : MySynthVoice).startNote
              Host.demo 20 (1 / 2))
            with random := (Random.demo.nextInt 2).2 } ∧
      (({ MySynthVoice.demo with random := Random.demo } : MySynthVoice).startNote
          Host.demo 20 (1 / 2)).freq
        = Host.demo.getMidiNoteInHertz (20 + 24) ∧
      (({ MySynthVoice.demo with random := Random.demo } : MySynthVoice).startNote
          Host.demo 20 (1 / 2)).delay
        = MySynthVoice.demo.delay.setDelayTime (toInt (1 / 2 * MySynthVoice.demo.sr)) ∧
      (({ MySynthVoice.demo with random := Random.demo } : MySynthVoice).startNote
          Host.demo 20 (1 / 2)).envParams
        = { MySynthVoice.demo.envParams with release := 1 / 2 * 12.0 } :=
  low_register_ignores_random Host.demo MySynthVoice.demo Random.demo Random.other 20 (1 / 2)
    (by decide)

end MySynthVoice

/-! ## Theorems about the values of one pass of the DSP loop -/

namespace Delay

variable {α : Type}

/-- A run of `process` calls returns one output per input. -/
theorem processAll_length (xs : List α) (d d1 : Delay α) (ys : List α)
    (h : processAll d xs = some (ys, d1)) : ys.length = xs.length := by
  induction xs generalizing d ys with
  | nil =>
    simp only [processAll, Option.some.injEq, Prod.mk.injEq] at h
    rw [← h.1]
  | cons x xs ih =>
    unfold processAll at h
    cases hp : process d x with
    | none => simp [hp] at h
    | some r =>
      obtain ⟨y, d2⟩ := r
      simp only [hp] at h
      cases hq : processAll d2 xs with
      | none => simp [hq] at h
      | some r2 =>
        obtain ⟨ys2, d3⟩ := r2
        simp only [hq, Option.some.injEq, Prod.mk.injEq] at h
        obtain ⟨rfl, rfl⟩ := h
        rw [List.length_cons, ih d2 ys2 hq, List.length_cons]

/-- A run of `process` calls followed by a second run is the run over both input lists. -/
theorem processAll_append (xs zs ys ws : List α) (d d1 d2 : Delay α)
    (h1 : processAll d xs = some (ys, d1)) (h2 : processAll d1 zs = some (ws, d2)) :
    processAll d (xs ++ zs) = some (ys ++ ws, d2) := by
  induction xs generalizing d ys with
  | nil =>
    simp only [processAll, Option.some.injEq, Prod.mk.injEq] at h1
    obtain ⟨rfl, rfl⟩ := h1
    simpa using h2
  | cons x xs ih =>
    unfold processAll at h1
    cases hp : process d x with
    | none => simp [hp] at h1
    | some r =>
      obtain ⟨y, d3⟩ := r
      simp only [hp] at h1
      cases hq : processAll d3 xs with
      | none => simp [hq] at h1
      | some r2 =>
        obtain ⟨ys2, d4⟩ := r2
        simp only [hq, Option.some.injEq, Prod.mk.injEq] at h1
        obtain ⟨rfl, rfl⟩ := h1
        have e := ih ys2 d3 hq
        rw [List.cons_append]
        unfold processAll
        rw [hp]
        dsimp only
        rw [e]
        rfl

end Delay

namespace MySynthVoice

/-- One pass of the DSP loop, spelled out: the values it computes are those of
`passValues`, the delay line of the voice takes the envelope value and then the
oscillator mix, the buffer receives `gainVal * currentSample`, the oscillator volumes
stay, and the envelope generator and the oscillators each move on by one answer. -/
theorem renderSample_spec (g : ℚ) (v v1 : MySynthVoice) (out out1 : AudioSampleBuffer)
    (i : Int) (h : renderSample g v out i = some (v1, out1)) :
    ∃ p d1, passValues v = some p ∧
      v.delay.process (envAt v 0) = some (p.delayEnv, d1) ∧
      d1.process (mixAt v 0) = some (p.delayed, v1.delay) ∧
      p.envVal = envAt v 0 ∧ p.totalOscs = mixAt v 0 ∧
      addToChannels out i (g * p.currentSample) = some out1 ∧
      (∀ m, envAt v1 m = envAt v (m + 1)) ∧ (∀ m, mixAt v1 m = mixAt v (m + 1)) := by
  unfold renderSample at h
  dsimp only at h
  cases hp1 : v.delay.process (v.env.getNextSample).1 with
  | none => simp [hp1] at h
  | some r1 =>
    obtain ⟨delayEnv, d1⟩ := r1
    rw [hp1] at h
    dsimp only at h
    cases hp2 : d1.process (mixAt v 0) with
    | none =>
      simp only [mixAt, Nat.add_zero] at hp2
      simp [Oscillator.process, Source.pull, hp2] at h
    | some r2 =>
      obtain ⟨delayed, d2⟩ := r2
      have hp2a := hp2
      simp only [mixAt, Nat.add_zero] at hp2a
      simp only [Oscillator.process, Source.pull, hp2a] at h
      cases ha : addToChannels out i
          (g * (mixAt v 0 * envAt v 0 + delayed * 0.5 * delayEnv)) with
      | none =>
        simp only [mixAt, envAt, Nat.add_zero] at ha
        simp [ADSR.getNextSample, Source.pull, ha] at h
      | some b1 =>
        have haa := ha
        simp only [mixAt, envAt, Nat.add_zero] at haa
        simp only [ADSR.getNextSample, Source.pull, haa, Option.some.injEq,
          Prod.mk.injEq] at h
        obtain ⟨rfl, rfl⟩ := h
        refine ⟨{ envVal := envAt v 0, delayEnv := delayEnv
                  tri := (v.triOsc.process).1, sine := (v.sineOsc.process).1
                  square := (v.sqOsc.process).1, detune := (v.detuneOsc.process).1
                  totalOscs := mixAt v 0, delayed := delayed, delayOutput := delayed * 0.5
                  currentSample := mixAt v 0 * envAt v 0 + delayed * 0.5 * delayEnv },
          d1, ?_, hp1, ?_, rfl, rfl, ha, ?_, ?_⟩
        · simp only [passValues, hp1]
          simp only [mixAt, Nat.add_zero] at hp2
          simp only [Oscillator.process, Source.pull, hp2, mixAt, envAt, Nat.add_zero,
            ADSR.getNextSample]
        · rw [hp2]
          split_ifs <;> rfl
        · intro m
          simp only [envAt, ADSR.getNextSample, Source.pull]
          split_ifs <;> simp only [Nat.add_assoc, Nat.add_comm 1 m]
        · intro m
          simp only [mixAt, Oscillator.process, Source.pull]
          split_ifs <;> simp only [Nat.add_assoc, Nat.add_comm 1 m]

end MySynthVoice

namespace MySynthVoice

/-- The next pass, read off `passValues`: how each value is obtained. -/
theorem passValues_spec (v : MySynthVoice) (p : PassValues) (h : passValues v = some p) :
    ∃ d1 d2, v.delay.process (envAt v 0) = some (p.delayEnv, d1) ∧
      d1.process (mixAt v 0) = some (p.delayed, d2) ∧
      p.envVal = envAt v 0 ∧ p.totalOscs = mixAt v 0 ∧
      p.tri = (v.triOsc.process).1 ∧ p.sine = (v.sineOsc.process).1 ∧
      p.square = (v.sqOsc.process).1 ∧ p.detune = (v.detuneOsc.process).1 ∧
      p.totalOscs = ((p.tri * v.triVolume + p.sine * v.sineVolume
        + p.square * v.sqVolume / 2) / v.oscCount + p.detune) / 2 ∧
      p.delayOutput = p.delayed * 0.5 ∧
      p.currentSample = p.totalOscs * p.envVal + p.delayOutput * p.delayEnv := by
  unfold passValues at h
  dsimp only at h
  cases hp1 : v.delay.process (v.env.getNextSample).1 with
  | none => simp [hp1] at h
  | some r1 =>
    obtain ⟨delayEnv, d1⟩ := r1
    rw [hp1] at h
    dsimp only at h
    split at h
    · cases h
    · rename_i delayed d2 hp2
      simp only [Option.some.injEq] at h
      subst h
      exact ⟨d1, d2, hp1, hp2, rfl, rfl, rfl, rfl, rfl, rfl, rfl, rfl, rfl⟩

/-- The next pass can be evaluated when the delay line has its cursors in range. -/
theorem passValues_ok (v : MySynthVoice) (hd : Delay.InRange v.delay) :
    ∃ p, passValues v = some p := by
  obtain ⟨y1, d1, hp1, hin1⟩ := process_inRange v.delay (v.env.getNextSample).1 hd
  unfold passValues
  dsimp only
  rw [hp1]
  dsimp only
  obtain ⟨y2, d2, hp2, -⟩ := process_inRange d1
    ((((v.triOsc.process).1 * v.triVolume + (v.sineOsc.process).1 * v.sineVolume
      + (v.sqOsc.process).1 * v.sqVolume / 2) / v.oscCount + (v.detuneOsc.process).1) / 2)
    hin1
  rw [hp2]
  exact ⟨_, rfl⟩

/-- The inputs of one more pass are appended to the inputs of the passes before. -/
theorem delayInputs_succ (v : MySynthVoice) (n : Nat) :
    delayInputs v (n + 1) = delayInputs v n ++ [envAt v n, mixAt v n] := by
  have e : 2 * (n + 1) = 2 * n + 1 + 1 := by ring
  have h0 : (2 * n) % 2 = 0 := by omega
  have h1 : (2 * n) / 2 = n := by omega
  have h2 : (2 * n + 1) % 2 = 1 := by omega
  have h3 : (2 * n + 1) / 2 = n := by omega
  simp only [delayInputs, e, List.range_succ, List.map_append, List.map_cons, List.map_nil,
    delayInput, h0, h1, h2, h3, List.append_assoc, List.cons_append, List.nil_append,
    if_true]
  simp

theorem delayInputs_length (v : MySynthVoice) (n : Nat) :
    (delayInputs v n).length = 2 * n := by
  simp [delayInputs]

theorem delayInputs_getElem (v : MySynthVoice) (n j : Nat) (h : j < 2 * n) :
    (delayInputs v n)[j]? = some (delayInput v j) := by
  simp [delayInputs, List.getElem?_range h]

/-- Over `n` passes of the DSP loop the delay line of the voice receives the inputs
`delayInputs`, one `process` call each, and the envelope generator and the oscillators
move on by `n` answers. -/
theorem renderLoop_delay (g : ℚ) (n : Nat) (v vn : MySynthVoice)
    (out outn : AudioSampleBuffer) (i : Int) (h : renderLoop g v out i n = some (vn, outn)) :
    (∃ ys, Delay.processAll v.delay (delayInputs v n) = some (ys, vn.delay)) ∧
      (∀ m, envAt vn m = envAt v (n + m)) ∧ (∀ m, mixAt vn m = mixAt v (n + m)) := by
  induction n generalizing vn outn with
  | zero =>
    simp only [renderLoop, Option.some.injEq, Prod.mk.injEq] at h
    obtain ⟨rfl, -⟩ := h
    refine ⟨⟨[], rfl⟩, ?_, ?_⟩ <;> intro m <;> rw [Nat.zero_add]
  | succ n ih =>
    rw [renderLoop_add g n 1] at h
    cases hpre : renderLoop g v out i n with
    | none => simp [hpre] at h
    | some r =>
      obtain ⟨vi, outi⟩ := r
      simp only [hpre, Option.some_bind, renderLoop] at h
      cases hs : renderSample g vi outi (i + n) with
      | none => simp [hs] at h
      | some r2 =>
        obtain ⟨v2, out2⟩ := r2
        simp only [hs, Option.some.injEq, Prod.mk.injEq] at h
        obtain ⟨rfl, rfl⟩ := h
        obtain ⟨⟨ys, hys⟩, he, hm⟩ := ih vi outi hpre
        obtain ⟨p, d1, -, hp1, hp2, -, -, -, he2, hm2⟩ := renderSample_spec g vi v2 outi out2 _ hs
        refine ⟨⟨ys ++ [p.delayEnv, p.delayed], ?_⟩, ?_, ?_⟩
        · rw [delayInputs_succ]
          refine Delay.processAll_append _ _ _ _ _ _ _ hys ?_
          have e1 : envAt v n = envAt vi 0 := by rw [he 0, Nat.add_zero]
          have e2 : mixAt v n = mixAt vi 0 := by rw [hm 0, Nat.add_zero]
          simp only [Delay.processAll, e1, e2, hp1, hp2]
        · intro m
          rw [he2 m, he (m + 1)]
          congr 1
          omega
        · intro m
          rw [hm2 m, hm (m + 1)]
          congr 1
          omega

end MySynthVoice

namespace MySynthVoice

/-- The two values the one delay line hands back in pass number `pass`, on a line whose
read cursor trails the write cursor by `l`: the first `delay.process` call of the pass is
call number `2 * pass` on the line and returns the input of call `2 * pass - l`, the
second is call number `2 * pass + 1` and returns the input of call `2 * pass + 1 - l`;
before `l` calls have been made the line returns what it already stored. -/
theorem passValuesAt_taps (v : MySynthVoice) (out : AudioSampleBuffer) (startSample : Int)
    (pass : Nat) (p : PassValues) (l : Int) (hR : Delay.Ready v.delay) (hl1 : 1 ≤ l)
    (hl2 : l ≤ v.delay.size)
    (hr : v.delay.readPos = (v.delay.writePos - l) % v.delay.size)
    (hp : passValuesAt v out startSample pass = some p) :
    (some p.delayEnv =
        if ((2 * pass : Nat) : Int) < l then Delay.past v.delay (l - (2 * pass : Nat))
        else some (delayInput v (2 * pass - l.toNat))) ∧
      (some p.delayed =
        if ((2 * pass + 1 : Nat) : Int) < l then Delay.past v.delay (l - (2 * pass + 1 : Nat))
        else some (delayInput v (2 * pass + 1 - l.toNat))) := by
  unfold passValuesAt at hp
  cases hpre : renderLoop (renderSetup v).1 (renderSetup v).2 out startSample pass with
  | none => simp [hpre] at hp
  | some r =>
    obtain ⟨vi, outi⟩ := r
    simp only [hpre] at hp
    obtain ⟨⟨ys, hys⟩, he, hm⟩ := renderLoop_delay _ _ _ _ _ _ _ hpre
    have hys1 : Delay.processAll v.delay (delayInputs v pass) = some (ys, vi.delay) := hys
    have he1 : envAt vi 0 = envAt v pass := by
      rw [he 0, Nat.add_zero]
      rfl
    have hm1 : mixAt vi 0 = mixAt v pass := by
      rw [hm 0, Nat.add_zero]
      rfl
    obtain ⟨d1, d2, hp1, hp2, -⟩ := passValues_spec vi p hp
    have htwo : Delay.processAll vi.delay [envAt v pass, mixAt v pass]
        = some ([p.delayEnv, p.delayed], d2) := by
      simp only [Delay.processAll, ← he1, ← hm1, hp1, hp2]
    have hall := Delay.processAll_append _ _ _ _ _ _ _ hys1 htwo
    rw [← delayInputs_succ] at hall
    obtain ⟨ys1, d3, hpa, -, -, -, -, hform⟩ :=
      Delay.processAll_tuned (delayInputs v (pass + 1)) v.delay l hR hl1 hl2 hr
    rw [hall] at hpa
    simp only [Option.some.injEq, Prod.mk.injEq] at hpa
    obtain ⟨rfl, -⟩ := hpa
    have hlen : ys.length = 2 * pass := by
      rw [Delay.processAll_length _ _ _ _ hys1, delayInputs_length]
    have hL : (delayInputs v (pass + 1)).length = 2 * (pass + 1) := delayInputs_length _ _
    have g0 : (ys ++ [p.delayEnv, p.delayed])[2 * pass]? = some p.delayEnv := by
      rw [List.getElem?_append_right (by omega), hlen, Nat.sub_self]
      rfl
    have g1 : (ys ++ [p.delayEnv, p.delayed])[2 * pass + 1]? = some p.delayed := by
      rw [List.getElem?_append_right (by omega), hlen]
      have : 2 * pass + 1 - 2 * pass = 1 := by omega
      rw [this]
      rfl
    have f0 := hform (2 * pass) (by omega)
    have f1 := hform (2 * pass + 1) (by omega)
    rw [g0] at f0
    rw [g1] at f1
    refine ⟨?_, ?_⟩
    · rw [f0]
      split_ifs with c
      · rfl
      · exact delayInputs_getElem v (pass + 1) _ (by omega)
    · rw [f1]
      split_ifs with c
      · rfl
      · exact delayInputs_getElem v (pass + 1) _ (by omega)

end MySynthVoice

namespace MySynthVoice

/-- The DSP loop keeps the cursors of the delay line in range. -/
theorem renderLoop_inRange (g : ℚ) (n : Nat) (v vn : MySynthVoice)
    (out outn : AudioSampleBuffer) (i : Int) (h : renderLoop g v out i n = some (vn, outn))
    (hd : Delay.InRange v.delay) : Delay.InRange vn.delay := by
  induction n generalizing v out i with
  | zero =>
    simp only [renderLoop, Option.some.injEq, Prod.mk.injEq] at h
    obtain ⟨rfl, -⟩ := h
    exact hd
  | succ n ih =>
    unfold renderLoop at h
    cases hs : renderSample g v out i with
    | none => simp [hs] at h
    | some r =>
      obtain ⟨v2, out2⟩ := r
      simp only [hs] at h
      obtain ⟨p, d1, -, hp1, hp2, -⟩ := renderSample_spec g v v2 out out2 i hs
      obtain ⟨y1, e1, hq1, hin1⟩ := process_inRange v.delay (envAt v 0) hd
      rw [hp1] at hq1
      simp only [Option.some.injEq, Prod.mk.injEq] at hq1
      obtain ⟨-, rfl⟩ := hq1
      obtain ⟨y2, e2, hq2, hin2⟩ := process_inRange d1 (mixAt v 0) hin1
      rw [hp2] at hq2
      simp only [Option.some.injEq, Prod.mk.injEq] at hq2
      obtain ⟨-, rfl⟩ := hq2
      exact ih v2 out2 (i + 1) h hin2

/-- The values of pass number `pass` can be evaluated when the delay line has its cursors
in range and the buffer has room for the passes before. -/
theorem passValuesAt_ok (v : MySynthVoice) (out : AudioSampleBuffer) (startSample : Int)
    (pass : Nat) (hd : Delay.InRange v.delay) (hb : out.Holds startSample pass) :
    ∃ p, passValuesAt v out startSample pass = some p := by
  obtain ⟨vi, outi, hpre⟩ := renderLoop_ok (renderSetup v).1 pass (renderSetup v).2 out
    startSample (startSample + pass) hd hb.1 (le_refl _) hb.2
  obtain ⟨p, hp⟩ := passValues_ok vi (renderLoop_inRange _ _ _ _ _ _ _ hpre hd)
  exact ⟨p, by simp only [passValuesAt, hpre, hp]⟩

/-- The voice after `startNote` has the envelope answers and oscillator answers of the
voice before; in the low register the mix is the triangle oscillator alone. -/
theorem startNote_low_streams (host : Host) (w : MySynthVoice) (midiNoteNumber : Int)
    (velocity : ℚ) (hm : midiNoteNumber ≤ 23) (n : Nat) :
    envAt (w.startNote host midiNoteNumber velocity) n = envAt w n ∧
      mixAt (w.startNote host midiNoteNumber velocity) n
        = (w.triOsc.signal.out (w.triOsc.signal.pulls + n)
            + w.detuneOsc.signal.out (w.detuneOsc.signal.pulls + n)) / 2 := by
  have hn : ¬ midiNoteNumber > 23 := by omega
  simp only [envAt, mixAt, startNote, setEnv, setFrequencyVelocity, hn, if_false,
    clearCurrentNote, ADSR.setParameters, ADSR.reset, ADSR.noteOn, Oscillator.setFrequency]
  refine ⟨trivial, ?_⟩
  norm_num

end MySynthVoice

namespace MySynthVoice

/-- The factor `0.5` and the sum of the two paths, read off the values of a pass. -/
theorem passValuesAt_spec (v : MySynthVoice) (out : AudioSampleBuffer) (startSample : Int)
    (pass : Nat) (p : PassValues) (h : passValuesAt v out startSample pass = some p) :
    p.delayOutput = p.delayed * 0.5 ∧
      p.currentSample = p.totalOscs * p.envVal + p.delayOutput * p.delayEnv ∧
      p.envVal = envAt v pass ∧ p.totalOscs = mixAt v pass := by
  unfold passValuesAt at h
  cases hpre : renderLoop (renderSetup v).1 (renderSetup v).2 out startSample pass with
  | none => simp [hpre] at h
  | some r =>
    obtain ⟨vi, outi⟩ := r
    simp only [hpre] at h
    obtain ⟨-, he, hm⟩ := renderLoop_delay _ _ _ _ _ _ _ hpre
    obtain ⟨d1, d2, -, -, h3, h4, -, -, -, -, -, h10, h11⟩ := passValues_spec vi p h
    refine ⟨h10, h11, ?_, ?_⟩
    · rw [h3, he 0, Nat.add_zero]
      rfl
    · rw [h4, hm 0, Nat.add_zero]
      rfl

/-- The two values the delay line hands back in a pass after `startNote` has retuned it
to the length `l` (the truncation of `velocity * sr`, with `1 ≤ l ≤ size`), by the parity
of `l`.  For an even length `l = 2 * k`, from pass `k` on `delayEnv` is the envelope value
of `k` passes earlier and `delayOutput` is `0.5` times the oscillator mix of `k` passes
earlier.  For an odd length `l = 2 * k + 1`, `delayEnv` is the oscillator mix of `k + 1`
passes earlier (from pass `k + 1` on) and `delayOutput` is `0.5` times the envelope value
of `k` passes earlier (from pass `k` on). -/
theorem startNote_taps (host : Host) (w : MySynthVoice) (midiNoteNumber : Int)
    (velocity : ℚ) (out : AudioSampleBuffer) (startSample : Int) (pass k : Nat) (l : Int)
    (hR : Delay.Ready w.delay) (hl : toInt (velocity * w.sr) = l) (hl1 : 1 ≤ l)
    (hl2 : l ≤ w.delay.size) (hb : out.Holds startSample pass) :
    ∃ p, passValuesAt (w.startNote host midiNoteNumber velocity) out startSample pass
        = some p ∧
      (l = 2 * k → k ≤ pass →
        p.delayEnv = envAt (w.startNote host midiNoteNumber velocity) (pass - k) ∧
        p.delayOutput = mixAt (w.startNote host midiNoteNumber velocity) (pass - k) * 0.5) ∧
      (l = 2 * k + 1 →
        (k + 1 ≤ pass →
          p.delayEnv = mixAt (w.startNote host midiNoteNumber velocity) (pass - (k + 1))) ∧
        (k ≤ pass →
          p.delayOutput
            = envAt (w.startNote host midiNoteNumber velocity) (pass - k) * 0.5)) := by
  have hdl := startNote_delay host w midiNoteNumber velocity
  rw [hl] at hdl
  have hs := hR.size_pos
  have hrd : (w.delay.setDelayTime l).readPos = (w.delay.writePos - l) % w.delay.size :=
    Delay.setDelayTime_readPos w.delay l hR (by omega) hl2
  have hR1 : Delay.Ready (w.startNote host midiNoteNumber velocity).delay := by
    rw [hdl]
    exact ⟨hR.size_pos, hR.length_eq, hR.write_lo, hR.write_hi⟩
  have hr1 : (w.startNote host midiNoteNumber velocity).delay.readPos
      = ((w.startNote host midiNoteNumber velocity).delay.writePos - l)
        % (w.startNote host midiNoteNumber velocity).delay.size := by
    rw [hdl]
    exact hrd
  have hin : Delay.InRange (w.startNote host midiNoteNumber velocity).delay :=
    ⟨hR1, by rw [hr1]; exact Int.emod_nonneg _ hR1.size_pos.ne',
      by rw [hr1]; exact Int.emod_lt_of_pos _ hR1.size_pos⟩
  have hsz : (w.startNote host midiNoteNumber velocity).delay.size = w.delay.size := by
    rw [hdl]
    rfl
  obtain ⟨p, hp⟩ := passValuesAt_ok _ out startSample pass hin hb
  obtain ⟨t0, t1⟩ := passValuesAt_taps _ out startSample pass p l hR1 hl1 (by rw [hsz]; exact hl2)
    hr1 hp
  obtain ⟨ho, -⟩ := passValuesAt_spec _ _ _ _ _ hp
  refine ⟨p, hp, ?_, ?_⟩
  · intro he hk
    subst he
    have c0 : ¬ (((2 * pass : Nat) : Int) < 2 * (k : Int)) := by push_cast; omega
    have c1 : ¬ (((2 * pass + 1 : Nat) : Int) < 2 * (k : Int)) := by push_cast; omega
    rw [if_neg c0] at t0
    rw [if_neg c1] at t1
    have a0 : (2 * pass - (2 * (k : Int)).toNat) % 2 = 0 := by omega
    have a1 : (2 * pass - (2 * (k : Int)).toNat) / 2 = pass - k := by omega
    have a2 : (2 * pass + 1 - (2 * (k : Int)).toNat) % 2 = 1 := by omega
    have a3 : (2 * pass + 1 - (2 * (k : Int)).toNat) / 2 = pass - k := by omega
    simp only [delayInput, a0, a1, if_true, Option.some.injEq] at t0
    simp only [delayInput, a2, a3, Option.some.injEq] at t1
    refine ⟨t0, ?_⟩
    rw [ho, t1]
    rfl
  · intro he
    subst he
    refine ⟨fun hk => ?_, fun hk => ?_⟩
    · have c0 : ¬ (((2 * pass : Nat) : Int) < 2 * (k : Int) + 1) := by push_cast; omega
      rw [if_neg c0] at t0
      have a0 : (2 * pass - (2 * (k : Int) + 1).toNat) % 2 = 1 := by omega
      have a1 : (2 * pass - (2 * (k : Int) + 1).toNat) / 2 = pass - (k + 1) := by omega
      simp only [delayInput, a0, a1, Option.some.injEq] at t0
      rw [t0]
      rfl
    · have c1 : ¬ (((2 * pass + 1 : Nat) : Int) < 2 * (k : Int) + 1) := by push_cast; omega
      rw [if_neg c1] at t1
      have a2 : (2 * pass + 1 - (2 * (k : Int) + 1).toNat) % 2 = 0 := by omega
      have a3 : (2 * pass + 1 - (2 * (k : Int) + 1).toNat) / 2 = pass - k := by omega
      simp only [delayInput, a2, a3, if_true, Option.some.injEq] at t1
      rw [ho, t1]

/-- The truncation of `1/4 * 4` is `1`. -/
theorem toInt_quarter_of_demo : toInt (1 / 4 * MySynthVoice.demo.sr) = 1 := by
  have e : (1 / 4 : ℚ) * MySynthVoice.demo.sr = 1 := by norm_num [MySynthVoice.demo]
  rw [e, toInt_of_nonneg _ (by norm_num)]
  exact Int.floor_one

theorem process_one_r3 (a b c d x : ℚ) (t : Int) :
    Delay.process
        { buffer := [a, b, c, d], size := 4, readPos := 3, writePos := 0,
          delayTimeInSamples := t } x
      = some (d,
        { buffer := [x, b, c, d], size := 4, readPos := 0, writePos := 1,
          delayTimeInSamples := t }) := rfl

theorem process_one_r0 (a b c d x : ℚ) (t : Int) :
    Delay.process
        { buffer := [a, b, c, d], size := 4, readPos := 0, writePos := 1,
          delayTimeInSamples := t } x
      = some (a,
        { buffer := [a, x, c, d], size := 4, readPos := 1, writePos := 2,
          delayTimeInSamples := t }) := rfl

/-- C16, the code at the failing input.  `startNote (20, 0.25)` on `MySynthVoice.demo`
(sample rate 4) retunes the one delay line of the voice to length 1.  Every envelope
value is then at most `0.00009` and every oscillator mix is `1/4`.  In pass 1 the source
finds `delayEnv = 1/4`, the oscillator mix of pass 0 and not an envelope value or a zero,
and `delayOutput = 0.00004`, half the envelope value of pass 1.  Two independent lines,
each started like the line of the voice, give `delayEnv = 0.00009` and
`delayOutput = 1/8` in that pass. -/
theorem delayEnv_is_oscillator_mix :
    (MySynthVoice.demo.startNote Host.demo 20 (1 / 4)).delay
        = MySynthVoice.demo.delay.setDelayTime 1 ∧
      (∀ n, envAt (MySynthVoice.demo.startNote Host.demo 20 (1 / 4)) n ≤ 9 / 100000) ∧
      (∀ n, mixAt (MySynthVoice.demo.startNote Host.demo 20 (1 / 4)) n = 1 / 4) ∧
      envAt (MySynthVoice.demo.startNote Host.demo 20 (1 / 4)) 0 = 9 / 100000 ∧
      envAt (MySynthVoice.demo.startNote Host.demo 20 (1 / 4)) 1 = 8 / 100000 ∧
      (∃ p, passValuesAt (MySynthVoice.demo.startNote Host.demo 20 (1 / 4)) [[0, 0]] 0 1
          = some p ∧ p.delayEnv = 1 / 4 ∧ p.delayOutput = 4 / 100000) ∧
      (TwoDelayLines.passes
          { envelopeDelay := MySynthVoice.demo.delay.setDelayTime 1
            signalDelay := MySynthVoice.demo.delay.setDelayTime 1 }
          [(9 / 100000, 1 / 4), (8 / 100000, 1 / 4)]).map Prod.fst
        = some [(1 / 4, 1 / 8), (9 / 100000, 1 / 8)] := by
  have hd : (MySynthVoice.demo.startNote Host.demo 20 (1 / 4)).delay
      = MySynthVoice.demo.delay.setDelayTime 1 := by
    rw [startNote_delay, toInt_quarter_of_demo]
  have hlow : (20 : Int) ≤ 23 := by decide
  have henv : ∀ n, envAt (MySynthVoice.demo.startNote Host.demo 20 (1 / 4)) n
      = ((9 - n : Nat) : ℚ) / 100000 := by
    intro n
    rw [(startNote_low_streams Host.demo MySynthVoice.demo 20 (1 / 4) hlow n).1]
    simp [envAt, MySynthVoice.demo, ADSR.demo]
  have hmix : ∀ n, mixAt (MySynthVoice.demo.startNote Host.demo 20 (1 / 4)) n = 1 / 4 := by
    intro n
    rw [(startNote_low_streams Host.demo MySynthVoice.demo 20 (1 / 4) hlow n).2]
    norm_num [MySynthVoice.demo, Oscillator.const, Source.const]
  refine ⟨hd, ?_, hmix, ?_, ?_, ?_, ?_⟩
  · intro n
    rw [henv n]
    have h : ((9 - n : Nat) : ℚ) ≤ 9 := by exact_mod_cast Nat.sub_le 9 n
    linarith
  · rw [henv 0]
    norm_num
  · rw [henv 1]
    norm_num
  · obtain ⟨p, hp, -, hodd⟩ := startNote_taps Host.demo MySynthVoice.demo 20 (1 / 4)
      [[0, 0]] 0 1 0 1 ⟨by decide, by decide, by decide, by decide⟩ toInt_quarter_of_demo
      (by decide) (by decide) ⟨by decide, by simp⟩
    have h1 : (1 : Int) = 2 * ((0 : Nat) : Int) + 1 := by norm_num
    refine ⟨p, hp, ?_, ?_⟩
    · rw [(hodd h1).1 (le_refl _), hmix]
    · rw [(hodd h1).2 (Nat.zero_le _), henv]
      norm_num
  · have e : MySynthVoice.demo.delay.setDelayTime 1
        = { buffer := [11 / 100000, 1 / 4, 10 / 100000, 1 / 4], size := 4, readPos := 3,
            writePos := 0, delayTimeInSamples := 1 } := rfl
    rw [e]
    norm_num [TwoDelayLines.passes, TwoDelayLines.pass, process_one_r3, process_one_r0]

end MySynthVoice

/-! ## Theorems about what a pass adds to the buffer -/

namespace MySynthVoice

/-- The effect of `addSample` on the samples of the buffer: the addressed sample grows by
the value, every other sample stays. -/
theorem addSample_getSample (b b1 : AudioSampleBuffer) (c : Nat) (idx : Int) (x : ℚ)
    (h : AudioSampleBuffer.addSample b c idx x = some b1) (c1 : Nat) (j : Int) :
    AudioSampleBuffer.getSample b1 c1 j
      = if c1 = c ∧ j = idx then (AudioSampleBuffer.getSample b c1 j).map (· + x)
        else AudioSampleBuffer.getSample b c1 j := by
  unfold AudioSampleBuffer.addSample at h
  cases hrow : b[c]? with
  | none => simp [hrow] at h
  | some row =>
    simp only [hrow] at h
    cases hld : Delay.load row idx with
    | none => simp [hld] at h
    | some old =>
      simp only [hld] at h
      have hc : c < b.length := by
        by_contra hcon
        rw [List.getElem?_eq_none (by omega)] at hrow
        cases hrow
      unfold Delay.store at h
      split_ifs at h with hcond
      simp only [Option.some.injEq] at h
      subst h
      obtain ⟨h0, h1⟩ := hcond
      unfold AudioSampleBuffer.getSample
      by_cases hcc : c1 = c
      · subst hcc
        rw [List.getElem?_set, if_pos rfl, if_pos hc, hrow]
        dsimp only
        by_cases hj : j = idx
        · subst hj
          rw [if_pos ⟨rfl, rfl⟩, Delay.load_set_same _ _ _ h0 (by omega), hld]
          rfl
        · rw [if_neg (fun hh => hj hh.2), Delay.load_set_other _ _ _ _ h0 hj]
      · rw [List.getElem?_set_ne (Ne.symm hcc), if_neg (fun hh => hcc hh.1)]

/-- The effect of the channel loop over a list of distinct channels. -/
theorem foldlM_addSample_getSample (idx : Int) (x : ℚ) (chans : List Nat)
    (hnd : chans.Nodup) (b b1 : AudioSampleBuffer)
    (h : chans.foldlM (fun acc chan => AudioSampleBuffer.addSample acc chan idx x) b
      = some b1) (c1 : Nat) (j : Int) :
    AudioSampleBuffer.getSample b1 c1 j
      = if c1 ∈ chans ∧ j = idx then (AudioSampleBuffer.getSample b c1 j).map (· + x)
        else AudioSampleBuffer.getSample b c1 j := by
  induction chans generalizing b with
  | nil =>
    simp only [List.foldlM_nil, pure, Option.some.injEq] at h
    subst h
    simp
  | cons c cs ih =>
    rw [List.foldlM_cons] at h
    cases ha : AudioSampleBuffer.addSample b c idx x with
    | none =>
      rw [ha] at h
      cases h
    | some b2 =>
      rw [ha] at h
      have hnd2 := List.nodup_cons.mp hnd
      have e1 := ih hnd2.2 b2 h
      have e2 := addSample_getSample b b2 c idx x ha c1 j
      rw [e1, e2]
      by_cases hj : j = idx
      · by_cases hcc : c1 = c
        · have hnot : c1 ∉ cs := by
            rw [hcc]
            exact hnd2.1
          simp only [hj, hcc, hnot, List.mem_cons, and_true, and_self, true_and, false_and,
            if_true, if_false, true_or]
          rw [if_neg (by rw [← hcc]; exact hnot)]
        · by_cases hmem : c1 ∈ cs
          · simp only [hj, hcc, hmem, List.mem_cons, and_true, and_self, true_and,
              false_and, if_true, if_false, or_true]
          · simp only [hj, hcc, hmem, List.mem_cons, and_true, and_self, true_and,
              false_and, if_true, if_false, or_self]
      · simp only [hj, and_false, if_false]

/-- The effect of the channel loop of the primary voice: in every channel the sample at
`sampleIndex` grows by the value, every other sample stays. -/
theorem addToChannels_getSample (b b1 : AudioSampleBuffer) (idx : Int) (x : ℚ)
    (h : addToChannels b idx x = some b1) (c1 : Nat) (j : Int) :
    AudioSampleBuffer.getSample b1 c1 j
      = if j = idx then (AudioSampleBuffer.getSample b c1 j).map (· + x)
        else AudioSampleBuffer.getSample b c1 j := by
  rw [foldlM_addSample_getSample idx x _ (List.nodup_range _) b b1 h c1 j]
  by_cases hj : j = idx
  · by_cases hc : c1 ∈ List.range b.getNumChannels
    · rw [if_pos ⟨hc, hj⟩, if_pos hj]
    · rw [if_neg (fun hh => hc hh.1), if_pos hj]
      have hlen : b.length ≤ c1 := by
        rw [List.mem_range] at hc
        exact not_lt.mp hc
      simp [AudioSampleBuffer.getSample, List.getElem?_eq_none hlen]
  · rw [if_neg (fun hh => hj hh.2), if_neg hj]

/-- One pass of the DSP loop keeps the oscillator volumes and `oscCount`. -/
theorem renderSample_volumes (g : ℚ) (v v1 : MySynthVoice) (out out1 : AudioSampleBuffer)
    (i : Int) (h : renderSample g v out i = some (v1, out1)) :
    v1.triVolume = v.triVolume ∧ v1.sineVolume = v.sineVolume ∧
      v1.sqVolume = v.sqVolume ∧ v1.oscCount = v.oscCount := by
  unfold renderSample at h
  dsimp only at h
  split at h
  · cases h
  · split at h
    · cases h
    · split at h
      · cases h
      · simp only [Option.some.injEq, Prod.mk.injEq] at h
        obtain ⟨rfl, -⟩ := h
        split_ifs <;> exact ⟨rfl, rfl, rfl, rfl⟩

/-- The DSP loop keeps the oscillator volumes and `oscCount`, and leaves every sample
outside its range of indices as it was. -/
theorem renderLoop_frame (g : ℚ) (n : Nat) (v v1 : MySynthVoice)
    (out out1 : AudioSampleBuffer) (i : Int) (h : renderLoop g v out i n = some (v1, out1)) :
    (v1.triVolume = v.triVolume ∧ v1.sineVolume = v.sineVolume ∧
      v1.sqVolume = v.sqVolume ∧ v1.oscCount = v.oscCount) ∧
      ∀ (c : Nat) (j : Int), (j < i ∨ i + n ≤ j) →
        AudioSampleBuffer.getSample out1 c j = AudioSampleBuffer.getSample out c j := by
  induction n generalizing v out i with
  | zero =>
    simp only [renderLoop, Option.some.injEq, Prod.mk.injEq] at h
    obtain ⟨rfl, rfl⟩ := h
    exact ⟨⟨rfl, rfl, rfl, rfl⟩, fun _ _ _ => rfl⟩
  | succ n ih =>
    unfold renderLoop at h
    cases hs : renderSample g v out i with
    | none => simp [hs] at h
    | some r =>
      obtain ⟨v2, out2⟩ := r
      simp only [hs] at h
      obtain ⟨a1, a2, a3, a4⟩ := renderSample_volumes g v v2 out out2 i hs
      obtain ⟨p, d1, -, -, -, -, -, hadd, -⟩ := renderSample_spec g v v2 out out2 i hs
      obtain ⟨⟨b1, b2, b3, b4⟩, hfr⟩ := ih v2 out2 (i + 1) h
      refine ⟨⟨b1.trans a1, b2.trans a2, b3.trans a3, b4.trans a4⟩, ?_⟩
      intro c j hj
      rw [hfr c j (by push_cast at hj; omega),
        addToChannels_getSample out out2 i _ hadd c j, if_neg (by push_cast at hj; omega)]

end MySynthVoice

namespace MySynthVoice

/-- C17 (per-sample mix formula).  A playing voice whose delay line has its cursors in
range renders a block into a buffer that has room for it.  Then the call returns, and for
every pass of the loop, with `tri`, `sine`, `square`, `detune` the oscillator outputs of
that pass and `envVal`, `delayEnv` its envelope values: the raw mix is
`((tri * triVolume + sine * sineVolume + square * sqVolume / 2) / oscCount + detune) / 2`,
`delayOutput` is `0.5` times what `delay.process` returns for the raw mix, the gain is
the one answer the smoother gave before the loop, and in every channel the sample at the
index of the pass ends as its old content plus
`gain * (rawMix * envVal + delayOutput * delayEnv)`. -/
theorem mix_formula (v : MySynthVoice) (out : AudioSampleBuffer)
    (startSample numSamples : Int) (pass : Nat) (hplay : v.playing = true)
    (hd : Delay.InRange v.delay) (hb : out.Holds startSample numSamples)
    (hpass : (pass : Int) < numSamples) :
    ∃ v1 out1 p, v.renderNextBlock out startSample numSamples = some (v1, out1) ∧
      v.passValuesAt out startSample pass = some p ∧
      p.totalOscs = ((p.tri * v.triVolume + p.sine * v.sineVolume
        + p.square * v.sqVolume / 2) / v.oscCount + p.detune) / 2 ∧
      p.delayOutput = 0.5 * p.delayed ∧
      p.currentSample = p.totalOscs * p.envVal + p.delayOutput * p.delayEnv ∧
      (renderSetup v).1 = v.smoothVolume.signal.out v.smoothVolume.signal.pulls ∧
      ∀ chan, AudioSampleBuffer.getSample out1 chan (startSample + pass)
        = (AudioSampleBuffer.getSample out chan (startSample + pass)).map
            (· + (renderSetup v).1 * p.currentSample) := by
  obtain ⟨v1, out1, hret⟩ := renderNextBlock_ok v out startSample numSamples hd hb
  have hret1 := hret
  have hn : numSamples.toNat = pass + ((numSamples.toNat - pass - 1) + 1) := by omega
  simp only [renderNextBlock, hplay, if_true] at hret1
  rw [hn, renderLoop_add] at hret1
  cases hpre : renderLoop (renderSetup v).1 (renderSetup v).2 out startSample pass with
  | none => simp [hpre] at hret1
  | some r =>
    obtain ⟨vi, outi⟩ := r
    simp only [hpre, Option.some_bind] at hret1
    unfold renderLoop at hret1
    cases hs : renderSample (renderSetup v).1 vi outi (startSample + pass) with
    | none => simp [hs] at hret1
    | some r2 =>
      obtain ⟨v2, out2⟩ := r2
      simp only [hs] at hret1
      obtain ⟨p, d1, hpv, -, -, -, -, hadd, -⟩ := renderSample_spec _ vi v2 outi out2 _ hs
      obtain ⟨e1, e2, -, -, -, -, -, -, -, -, hform, hout, hcur⟩ := passValues_spec vi p hpv
      obtain ⟨⟨a1, a2, a3, a4⟩, hfr1⟩ := renderLoop_frame _ _ _ _ _ _ _ hpre
      obtain ⟨-, hfr2⟩ := renderLoop_frame _ _ _ _ _ _ _ hret1
      have b1 : vi.triVolume = v.triVolume := a1
      have b2 : vi.sineVolume = v.sineVolume := a2
      have b3 : vi.sqVolume = v.sqVolume := a3
      have b4 : vi.oscCount = v.oscCount := a4
      refine ⟨v1, out1, p, hret, by simp only [passValuesAt, hpre, hpv], ?_, ?_, hcur, rfl, ?_⟩
      · rw [hform, b1, b2, b3, b4]
      · rw [hout, mul_comm]
      · intro chan
        rw [hfr2 chan _ (Or.inl (by omega)),
          addToChannels_getSample outi out2 _ _ hadd chan _, if_pos rfl,
          hfr1 chan _ (Or.inr (le_refl _))]

/-- Witness for C17: pass 1 of a three-sample block on `MySynthVoice.demo`. -/
theorem mix_formula_witness :
    ∃ v1 out1 p, MySynthVoice.demo.renderNextBlock [[0, 0, 0]] 0 3 = some (v1, out1) ∧
      MySynthVoice.demo.passValuesAt [[0, 0, 0]] 0 1 = some p ∧
      p.totalOscs = ((p.tri * MySynthVoice.demo.triVolume + p.sine * MySynthVoice.demo.sineVolume
        + p.square * MySynthVoice.demo.sqVolume / 2) / MySynthVoice.demo.oscCount
        + p.detune) / 2 ∧
      p.delayOutput = 0.5 * p.delayed ∧
      p.currentSample = p.totalOscs * p.envVal + p.delayOutput * p.delayEnv ∧
      (renderSetup MySynthVoice.demo).1
        = MySynthVoice.demo.smoothVolume.signal.out MySynthVoice.demo.smoothVolume.signal.pulls ∧
      ∀ chan, AudioSampleBuffer.getSample out1 chan (0 + (1 : Nat))
        = (AudioSampleBuffer.getSample [[0, 0, 0]] chan (0 + (1 : Nat))).map
            (· + (renderSetup MySynthVoice.demo).1 * p.currentSample) :=
  mix_formula MySynthVoice.demo [[0, 0, 0]] 0 3 1 rfl
    ⟨⟨by decide, by decide, by decide, by decide⟩, by decide, by decide⟩
    ⟨by decide, by simp⟩ (by decide)

end MySynthVoice

/-! ## Theorems about the termination of the pulse voice -/

namespace pulseSynthVoice

/-- The channel loop of the pulse voice, over any list of channels of the buffer:
it succeeds when the buffer has room for the sample index, keeps that room, and touches
no member of the voice but the volume cell. -/
theorem pulse_fold_ok (idx hi : Int) (x : ℚ) (h0 : 0 ≤ idx) (h1 : idx < hi)
    (chans : List Nat) (s : pulseSynthVoice × AudioSampleBuffer)
    (hc : ∀ c ∈ chans, c < s.2.length) (hP : ∀ row ∈ s.2, hi ≤ (row.length : Int)) :
    ∃ s1, chans.foldlM
        (fun (s : pulseSynthVoice × AudioSampleBuffer) chan =>
          match AudioSampleBuffer.addSample s.2 chan idx (x * (s.1.volume.pull).1) with
          | none => none
          | some b => some ({ s.1 with volume := (s.1.volume.pull).2 }, b)) s = some s1 ∧
      s1.2.length = s.2.length ∧ (∀ row ∈ s1.2, hi ≤ (row.length : Int)) ∧
      s1.1.env = s.1.env ∧ s1.1.ending = s.1.ending ∧ s1.1.playing = s.1.playing ∧
      s1.1.currentlyPlayingNote = s.1.currentlyPlayingNote := by
  induction chans generalizing s with
  | nil => exact ⟨s, rfl, rfl, hP, rfl, rfl, rfl, rfl⟩
  | cons c cs ih =>
    obtain ⟨b1, hb1, hl1, hP1⟩ := MySynthVoice.addSample_ok s.2 c idx hi
      (x * (s.1.volume.pull).1) (hc c (List.mem_cons_self _ _)) h0 h1 hP
    obtain ⟨s2, hs2, hl2, hP2, e1, e2, e3, e4⟩ :=
      ih ({ s.1 with volume := (s.1.volume.pull).2 }, b1)
        (fun k hk => by
          show k < b1.length
          rw [hl1]
          exact hc k (List.mem_cons_of_mem _ hk)) hP1
    refine ⟨s2, ?_, hl2.trans hl1, hP2, e1, e2, e3, e4⟩
    rw [List.foldlM_cons, hb1]
    exact hs2

/-- One pass of the DSP loop of the pulse voice succeeds when the buffer has room for
the sample index; `ending` stays, `playing` stays on exactly when it was on and the
voice is not ending with an envelope value below `0.0001`, and the envelope generator
moves on by one answer. -/
theorem pulse_renderSample_ok (v : pulseSynthVoice) (out : AudioSampleBuffer) (idx hi : Int)
    (h0 : 0 ≤ idx) (h1 : idx < hi) (hP : ∀ row ∈ out, hi ≤ (row.length : Int)) :
    ∃ v1 out1, renderSample v out idx = some (v1, out1) ∧
      (∀ row ∈ out1, hi ≤ (row.length : Int)) ∧ v1.ending = v.ending ∧
      (v1.playing = true ↔ v.playing = true ∧ ¬ (v.ending = true ∧ envAt v 0 < 0.0001)) ∧
      ∀ m, envAt v1 m = envAt v (m + 1) := by
  unfold renderSample
  dsimp only
  obtain ⟨s1, hs1, -, hP1, e1, e2, e3, -⟩ := pulse_fold_ok idx hi
    (((({ v with
        env := (v.env.getNextSample).2
        pulseSpeed := (v.pulseSpeed.pull).2
        key := ((v.key.setPulseSpeed (v.pulseSpeed.pull).1).changeFreq) }
        : pulseSynthVoice).key.randomNoteGenerator).1) * (v.env.getNextSample).1)
    h0 h1 (List.range out.getNumChannels)
    (({ v with
        env := (v.env.getNextSample).2
        pulseSpeed := (v.pulseSpeed.pull).2
        key := (((v.key.setPulseSpeed (v.pulseSpeed.pull).1).changeFreq).randomNoteGenerator).2 }
        : pulseSynthVoice), out)
    (fun c hc => List.mem_range.mp hc) hP
  obtain ⟨w, b⟩ := s1
  have hs : addToChannels
      ({ v with
        env := (v.env.getNextSample).2
        pulseSpeed := (v.pulseSpeed.pull).2
        key := (((v.key.setPulseSpeed (v.pulseSpeed.pull).1).changeFreq).randomNoteGenerator).2 }
        : pulseSynthVoice) out idx
      ((((v.key.setPulseSpeed (v.pulseSpeed.pull).1).changeFreq).randomNoteGenerator).1
        * (v.env.getNextSample).1) = some (w, b) := hs1
  rw [hs]
  dsimp only at e1 e2 e3 hP1 ⊢
  have henv : (v.env.getNextSample).1 = envAt v 0 := rfl
  refine ⟨_, b, rfl, hP1, ?_, ?_, ?_⟩
  · split_ifs <;> simp [clearCurrentNote, e2]
  · rw [henv, e2]
    by_cases he : v.ending = true
    · by_cases ht : envAt v 0 < 0.0001
      · simp [he, ht, clearCurrentNote]
      · simp [he, ht, e3]
    · simp [he, e3]
  · intro m
    have : ∀ u : pulseSynthVoice, u.env = w.env → envAt u m = envAt v (m + 1) := by
      intro u hu
      simp only [envAt, hu, e1, ADSR.getNextSample, Source.pull, Nat.add_assoc,
        Nat.add_comm 1 m]
    split_ifs
    · exact this _ rfl
    · exact this _ rfl
    · exact this _ rfl

end pulseSynthVoice

namespace pulseSynthVoice

/-- The DSP loop of the pulse voice succeeds when the buffer has room for its sample
indices; `ending` stays, and `playing` stays on exactly when it was on and the voice is
not ending with some envelope value of the loop below `0.0001`. -/
theorem pulse_renderLoop_ok (n : Nat) (v : pulseSynthVoice) (out : AudioSampleBuffer)
    (idx hi : Int) (h0 : 0 ≤ idx) (h1 : idx + n ≤ hi)
    (hP : ∀ row ∈ out, hi ≤ (row.length : Int)) :
    ∃ v1 out1, renderLoop v out idx n = some (v1, out1) ∧ v1.ending = v.ending ∧
      (v1.playing = true ↔
        v.playing = true ∧ ¬ (v.ending = true ∧ ∃ k, k < n ∧ envAt v k < 0.0001)) := by
  induction n generalizing v out idx with
  | zero =>
    refine ⟨v, out, rfl, rfl, ?_⟩
    simp
  | succ n ih =>
    obtain ⟨v2, out2, hs, hP2, e2, p2, henv⟩ :=
      pulse_renderSample_ok v out idx hi h0 (by push_cast at h1; omega) hP
    obtain ⟨v1, out1, hl, e1, p1⟩ :=
      ih v2 out2 (idx + 1) (by omega) (by push_cast at h1; omega) hP2
    refine ⟨v1, out1, by simp only [renderLoop, hs, hl], e1.trans e2, ?_⟩
    rw [p1, p2, e2]
    constructor
    · rintro ⟨⟨hp, hn0⟩, hn⟩
      refine ⟨hp, ?_⟩
      rintro ⟨he, k, hk, hlt⟩
      cases k with
      | zero => exact hn0 ⟨he, hlt⟩
      | succ j =>
        refine hn ⟨he, j, by omega, ?_⟩
        rw [henv j]
        exact hlt
    · rintro ⟨hp, hn⟩
      refine ⟨⟨hp, fun hh => hn ⟨hh.1, 0, by omega, hh.2⟩⟩, ?_⟩
      rintro ⟨he, j, hj, hlt⟩
      refine hn ⟨he, j + 1, by omega, ?_⟩
      rw [← henv j]
      exact hlt

/-- The call `renderNextBlock` on a playing pulse voice, by the envelope values alone. -/
theorem pulse_renderNextBlock_playing (v : pulseSynthVoice) (out : AudioSampleBuffer)
    (startSample numSamples : Int) (hplay : v.playing = true)
    (hb : out.Holds startSample numSamples) :
    ∃ v1 out1, v.renderNextBlock out startSample numSamples = some (v1, out1) ∧
      v1.ending = v.ending ∧
      (v1.playing = true ↔
        ¬ (v.ending = true ∧ ∃ k : Nat, (k : Int) < numSamples ∧ envAt v k < 0.0001)) := by
  by_cases hn : 0 ≤ numSamples
  · obtain ⟨v1, out1, hl, e1, p1⟩ := pulse_renderLoop_ok numSamples.toNat v out startSample
      (startSample + numSamples) hb.1 (by omega) hb.2
    refine ⟨v1, out1, by simp only [renderNextBlock, hplay, if_true, hl], e1, ?_⟩
    rw [p1]
    constructor
    · rintro ⟨-, hno⟩ ⟨he, k, hk, hlt⟩
      exact hno ⟨he, k, by omega, hlt⟩
    · intro hno
      refine ⟨hplay, ?_⟩
      rintro ⟨he, k, hk, hlt⟩
      exact hno ⟨he, k, by omega, hlt⟩
  · have e : numSamples.toNat = 0 := by omega
    refine ⟨v, out, by simp only [renderNextBlock, hplay, if_true, e, renderLoop], rfl, ?_⟩
    constructor
    · rintro - ⟨-, k, hk, -⟩
      omega
    · intro _
      exact hplay

/-- C21 (pulse-voice termination).  A playing pulse voice renders a block into a buffer
that has room for it.  The call returns and leaves `ending` as it was.  If the voice is
Releasing, it is Idle afterwards exactly when the envelope value of some sample of the
block is below `0.0001`; if it is not Releasing, it is still playing.  Any other playing
voice with the same `ending` flag and the same envelope values ends with the same
`playing` flag, whatever its key engine, volume and pulse speed return. -/
theorem pulse_termination (v : pulseSynthVoice) (out : AudioSampleBuffer)
    (startSample numSamples : Int) (hplay : v.playing = true)
    (hb : out.Holds startSample numSamples) :
    ∃ v1 out1, v.renderNextBlock out startSample numSamples = some (v1, out1) ∧
      v1.ending = v.ending ∧
      (v.ending = true →
        (v1.playing = false ↔ ∃ k : Nat, (k : Int) < numSamples ∧ envAt v k < 0.0001)) ∧
      (v.ending = false → v1.playing = true) ∧
      ∀ (w : pulseSynthVoice) (out2 : AudioSampleBuffer), w.playing = true →
        w.ending = v.ending → (∀ k, envAt w k = envAt v k) →
        out2.Holds startSample numSamples →
        ∃ w1 out3, w.renderNextBlock out2 startSample numSamples = some (w1, out3) ∧
          w1.playing = v1.playing := by
  obtain ⟨v1, out1, hret, e1, p1⟩ :=
    pulse_renderNextBlock_playing v out startSample numSamples hplay hb
  refine ⟨v1, out1, hret, e1, ?_, ?_, ?_⟩
  · intro he
    rw [← Bool.not_eq_true, p1]
    simp [he]
  · intro he
    rw [p1]
    simp [he]
  · intro w out2 hw hwe henv hb2
    obtain ⟨w1, out3, hret2, -, p2⟩ :=
      pulse_renderNextBlock_playing w out2 startSample numSamples hw hb2
    refine ⟨w1, out3, hret2, ?_⟩
    have hiff : w1.playing = true ↔ v1.playing = true := by
      rw [p1, p2, hwe]
      simp only [henv]
    cases hw1 : w1.playing <;> cases hv1 : v1.playing <;> simp_all

/-- Witness for C21: a three-sample block on `pulseSynthVoice.demo`, whose envelope
values are below `0.0001`. -/
theorem pulse_termination_witness :
    ∃ v1 out1, pulseSynthVoice.demo.renderNextBlock [[0, 0, 0]] 0 3 = some (v1, out1) ∧
      v1.ending = pulseSynthVoice.demo.ending ∧
      (pulseSynthVoice.demo.ending = true →
        (v1.playing = false ↔
          ∃ k : Nat, (k : Int) < 3 ∧ envAt pulseSynthVoice.demo k < 0.0001)) ∧
      (pulseSynthVoice.demo.ending = false → v1.playing = true) ∧
      ∀ (w : pulseSynthVoice) (out2 : AudioSampleBuffer), w.playing = true →
        w.ending = pulseSynthVoice.demo.ending →
        (∀ k, envAt w k = envAt pulseSynthVoice.demo k) → out2.Holds 0 3 →
        ∃ w1 out3, w.renderNextBlock out2 0 3 = some (w1, out3) ∧
          w1.playing = v1.playing :=
  pulse_termination pulseSynthVoice.demo [[0, 0, 0]] 0 3 rfl ⟨by decide, by simp⟩

end pulseSynthVoice

/-! ## Theorems about the retunes the primary voice issues -/

namespace Delay

variable {α : Type}

end Delay

namespace MySynthVoice

/-- On a tuned voice, `init` with a positive whole rate that is not below the rate of
the voice is a call the voice can take. -/
theorem init_allowed_of_not_lower (v : MySynthVoice) (sampleRate : ℚ) (ht : Tuned v)
    (hpos : 0 < sampleRate) (hwhole : sampleRate = ((toInt sampleRate : Int) : ℚ))
    (hle : v.sr ≤ sampleRate) : Call.Allowed v (Call.init sampleRate) := by
  obtain ⟨a, b, c, d, e, f, g, h, i⟩ := ht
  refine ⟨hpos, hwhole, ?_⟩
  have h1 : ((v.delay.size : Int) : ℚ) ≤ ((toInt sampleRate : Int) : ℚ) := by
    rw [← b, ← hwhole]
    exact hle
  have h2 : v.delay.size ≤ toInt sampleRate := by exact_mod_cast h1
  omega

end MySynthVoice

/-! ## Theorems about `init` at a lower rate -/

namespace Delay

variable {α : Type}

end Delay

namespace MySynthVoice

end MySynthVoice

/-! ## Theorems about the envelope durations of the voices reached from `init` -/

namespace MySynthVoice

/-- One pass of the DSP loop leaves `envParams` alone. -/
theorem renderSample_envParams (g : ℚ) (v v1 : MySynthVoice) (out out1 : AudioSampleBuffer)
    (i : Int) (h : renderSample g v out i = some (v1, out1)) :
    v1.envParams = v.envParams := by
  unfold renderSample at h
  dsimp only at h
  split at h
  · cases h
  · split at h
    · cases h
    · split at h
      · cases h
      · simp only [Option.some.injEq, Prod.mk.injEq] at h
        obtain ⟨rfl, -⟩ := h
        split_ifs <;> rfl

/-- The DSP loop leaves `envParams` alone. -/
theorem renderLoop_envParams (g : ℚ) (n : Nat) (v v1 : MySynthVoice)
    (out out1 : AudioSampleBuffer) (i : Int) (h : renderLoop g v out i n = some (v1, out1)) :
    v1.envParams = v.envParams := by
  induction n generalizing v out i with
  | zero =>
    simp only [renderLoop, Option.some.injEq, Prod.mk.injEq] at h
    obtain ⟨rfl, -⟩ := h
    rfl
  | succ n ih =>
    unfold renderLoop at h
    cases hs : renderSample g v out i with
    | none => simp [hs] at h
    | some r =>
      obtain ⟨v2, out2⟩ := r
      simp only [hs] at h
      exact (ih v2 out2 (i + 1) h).trans (renderSample_envParams g v v2 out out2 i hs)

/-- The call `renderNextBlock` leaves `envParams` alone. -/
theorem renderNextBlock_envParams (v v1 : MySynthVoice) (out out1 : AudioSampleBuffer)
    (startSample numSamples : Int)
    (h : v.renderNextBlock out startSample numSamples = some (v1, out1)) :
    v1.envParams = v.envParams := by
  unfold renderNextBlock at h
  split_ifs at h
  · exact renderLoop_envParams _ _ (renderSetup v).2 v1 out out1 startSample h
  · simp only [Option.some.injEq, Prod.mk.injEq] at h
    obtain ⟨rfl, -⟩ := h
    rfl

/-- Every call keeps the attack held in `envParams` positive. -/
theorem step_attack (host : Host) (v v1 : MySynthVoice) (c : Call)
    (ha : 0 < v.envParams.attack) (h : step host v c = some v1) :
    0 < v1.envParams.attack := by
  cases c with
  | init sampleRate =>
    rw [(init_envParams v v1 sampleRate h).1]
    norm_num
  | startNote midiNoteNumber velocity =>
    simp only [step, Option.some.injEq] at h
    subst h
    rw [(startNote_envParams host v midiNoteNumber velocity).1]
    exact (setEnv_durations v velocity midiNoteNumber ha).1
  | stopNote allowTailOff =>
    simp only [step, Option.some.injEq] at h
    subst h
    unfold stopNote
    split_ifs <;> exact ha
  | renderNextBlock outputBuffer startSample numSamples =>
    cases hr : v.renderNextBlock outputBuffer startSample numSamples with
    | none => simp [step, hr] at h
    | some r =>
      obtain ⟨v2, out2⟩ := r
      simp only [step, hr, Option.map_some', Option.some.injEq] at h
      subst h
      rw [renderNextBlock_envParams v v2 outputBuffer out2 startSample numSamples hr]
      exact ha

/-- After any sequence of calls on a voice whose `envParams` hold a positive attack, the
attack held after each call is positive. -/
theorem states_attack (host : Host) (calls : List Call) (v : MySynthVoice)
    (vs : List MySynthVoice) (ha : 0 < v.envParams.attack)
    (h : states host v calls = some vs) : ∀ u ∈ vs, 0 < u.envParams.attack := by
  induction calls generalizing v vs with
  | nil =>
    simp only [states, Option.some.injEq] at h
    subst h
    intro u hu
    cases hu
  | cons c rest ih =>
    unfold states at h
    cases hs : step host v c with
    | none => simp [hs] at h
    | some v1 =>
      cases hr : states host v1 rest with
      | none => simp [hs, hr] at h
      | some us =>
        simp only [hs, hr, Option.some.injEq] at h
        subst h
        have ha1 := step_attack host v v1 c ha hs
        intro u hu
        rcases List.mem_cons.mp hu with rfl | hu
        · exact ha1
        · exact ih v1 us ha1 hr u hu

/-- After `init` and any sequence of calls, on any voice, the attack held in `envParams`
after each call is positive. -/
theorem reached_attack (host : Host) (v0 : MySynthVoice) (sampleRate : ℚ)
    (calls : List Call) (vs : List MySynthVoice)
    (h : states host v0 (Call.init sampleRate :: calls) = some vs) :
    ∀ u ∈ vs, 0 < u.envParams.attack := by
  unfold states at h
  cases hs : step host v0 (Call.init sampleRate) with
  | none => simp [hs] at h
  | some v1 =>
    cases hr : states host v1 calls with
    | none => simp [hs, hr] at h
    | some us =>
      simp only [hs, hr, Option.some.injEq] at h
      subst h
      have ha1 : 0 < v1.envParams.attack := by
        rw [(init_envParams v0 v1 sampleRate hs).1]
        norm_num
      intro u hu
      rcases List.mem_cons.mp hu with rfl | hu
      · exact ha1
      · exact states_attack host calls v1 us ha1 hr u hu

/-- C12 amended (positive envelope durations).  Take any voice reached from `init` by
any sequence of `init`, `startNote`, `stopNote` and `renderNextBlock` calls, any velocity,
any note number and any state of the random source.  The attack `setEnv` hands to the
envelope generator is strictly positive, at every velocity.  The release it hands over
is strictly positive when the velocity is positive, and exactly `0` at velocity `0`.  The
same holds of the parameters the generator holds when `startNote` returns. -/
theorem positive_durations (host : Host) (v0 : MySynthVoice) (sampleRate : ℚ)
    (calls : List Call) (vs : List MySynthVoice)
    (hrun : states host v0 (Call.init sampleRate :: calls) = some vs)
    (v : MySynthVoice) (hv : v ∈ vs) (velocity : ℚ) (midiNoteNumber : Int) :
    (0 < (v.setEnv velocity midiNoteNumber).env.parameters.attack ∧
      (0 < velocity → 0 < (v.setEnv velocity midiNoteNumber).env.parameters.release) ∧
      (velocity = 0 → (v.setEnv velocity midiNoteNumber).env.parameters.release = 0)) ∧
    (0 < (v.startNote host midiNoteNumber velocity).env.parameters.attack ∧
      (0 < velocity →
        0 < (v.startNote host midiNoteNumber velocity).env.parameters.release) ∧
      (velocity = 0 →
        (v.startNote host midiNoteNumber velocity).env.parameters.release = 0)) := by
  have ha := reached_attack host v0 sampleRate calls vs hrun v hv
  obtain ⟨d1, d2, d3, d4⟩ := setEnv_durations v velocity midiNoteNumber ha
  constructor
  · rw [d4]
    exact ⟨d1, d2, d3⟩
  · rw [(startNote_envParams host v midiNoteNumber velocity).2]
    exact ⟨d1, d2, d3⟩

/-- Witness for C12 amended: `MySynthVoice.demo` receives `init (4)` and a hard note,
`startNote (40, 0.9)`, which draws the attack at random; the voice it leaves is then
asked for a note at velocity `0.5`. -/
theorem positive_durations_witness :
    ∃ vs v,
      states Host.demo MySynthVoice.demo [Call.init 4, Call.startNote 40 (9 / 10)]
        = some vs ∧ v ∈ vs ∧
      (0 < (v.setEnv (1 / 2) 40).env.parameters.attack ∧
        ((0 : ℚ) < 1 / 2 → 0 < (v.setEnv (1 / 2) 40).env.parameters.release) ∧
        ((1 / 2 : ℚ) = 0 → (v.setEnv (1 / 2) 40).env.parameters.release = 0)) ∧
      (0 < (v.startNote Host.demo 40 (1 / 2)).env.parameters.attack ∧
        ((0 : ℚ) < 1 / 2 → 0 < (v.startNote Host.demo 40 (1 / 2)).env.parameters.release) ∧
        ((1 / 2 : ℚ) = 0 →
          (v.startNote Host.demo 40 (1 / 2)).env.parameters.release = 0)) := by
  obtain ⟨w, hw⟩ := init_ok MySynthVoice.demo 4 (by norm_num)
  have hrun : states Host.demo MySynthVoice.demo [Call.init 4, Call.startNote 40 (9 / 10)]
      = some [w, w.startNote Host.demo 40 (9 / 10)] := by
    simp only [states, step, hw]
  have hmem : w.startNote Host.demo 40 (9 / 10) ∈ [w, w.startNote Host.demo 40 (9 / 10)] :=
    List.mem_cons_of_mem _ (List.mem_singleton_self _)
  exact ⟨_, _, hrun, hmem,
    positive_durations Host.demo MySynthVoice.demo 4 [Call.startNote 40 (9 / 10)] _ hrun _
      hmem (1 / 2) 40⟩

end MySynthVoice

end Synth
